import Mathlib

/-!
Verification development for the `data_tools` repository
(`src/wrap.py`: `multi_source_array`; `src/io.py`: `data_flow`,
`buffered_array_writer`, `bcolz_array_writer`).

The Python code is shallowly embedded: element values of the underlying
data sources are abstract (`α`), the polymorphic numpy-style keys of
`multi_source_array.__getitem__` are a tagged union (`PyKey`), raised
exceptions are `Except` errors, and the concurrent `data_flow.flow`
shutdown protocol is a small-step interleaving transition system.
-/

namespace DataTools

/-- Keys accepted by `multi_source_array.__getitem__` and by its helper
functions: Python ints, numpy bool scalars, slices, `Ellipsis`, Python
lists and tuples (which may nest), and - only in their 1-D form, the only
form the surrounding code can produce or meaningfully route - integer and
boolean numpy arrays. -/
inductive PyKey : Type where
  | pInt (i : Int)
  | pBool (b : Bool)
  | pSlice (lo hi st : Option Int)
  | pEllip
  | pList (xs : List PyKey)
  | pTuple (xs : List PyKey)
  | pIntArr (xs : List Int)
  | pBoolArr (bs : List Bool)

/-- The distinct exceptions raised by the indexing code in `wrap.py`
(`IndexError` variants, plus `ValueError` for a zero slice step). -/
inductive PyErr : Type where
  | cannotIndex
  | notEnough
  | shapeMismatch
  | tooMany
  | outOfRange
  | valueErr
  deriving DecidableEq

/-- Result of `__getitem__`: a single element, a stacked block
(`np.zeros`-allocated, one row per primary index), or Python `None`
(what `_get_block` returns for an empty index list). -/
inductive Item (α : Type) : Type where
  | el (a : α)
  | blk (rows : List α)
  | nil
  deriving DecidableEq

/-- Equality of embedded call results is decidable, so the concrete
instances below evaluate by `decide`. -/
instance exceptDecEq {ε σ : Type} [DecidableEq ε] [DecidableEq σ] :
    DecidableEq (Except ε σ) := fun a b =>
  match a, b with
  | Except.error e, Except.error f =>
    if h : e = f then Decidable.isTrue (by rw [h])
    else Decidable.isFalse (fun hc => h (Except.error.inj hc))
  | Except.ok x, Except.ok y =>
    if h : x = y then Decidable.isTrue (by rw [h])
    else Decidable.isFalse (fun hc => h (Except.ok.inj hc))
  | Except.error _, Except.ok _ => Decidable.isFalse (fun hc => Except.noConfusion hc)
  | Except.ok _, Except.error _ => Decidable.isFalse (fun hc => Except.noConfusion hc)

/-- One underlying data source: its length, its trailing shape
(`source.shape[1:]`), and its own indexing function.  `elem j rem` is
`source[j]` when `rem = none` and `source[(j,) + tuple(rem)]` when
`rem = some r`; the source's indexing is abstract (sources are numpy-like
collaborators, out of scope of the core). -/
structure Src (α : Type) : Type where
  len : Nat
  trail : List Nat
  elem : Nat → Option (List PyKey) → α

/-- `multi_source_array`: the list of combined sources (no shuffle:
the claims under verification all concern the unshuffled index map). -/
structure MSA (α : Type) : Type where
  sources : List (Src α)

/-- `self.num_items`: total length, the sum of the source lengths. -/
def msaLen {α : Type} (arr : MSA α) : Nat :=
  (arr.sources.map Src.len).sum

/-- `self.ndim = len(self.shape)` where
`self.shape = (num_items,) + source_list[0].shape[1:]`. -/
def ndim {α : Type} (arr : MSA α) : Nat :=
  1 + (match arr.sources.head? with
       | some s => s.trail.length
       | none => 0)

/-- The `index_pairs` construction loop, starting at source number `i`. -/
def indexPairsFrom {α : Type} (i : Nat) : List (Src α) → List (Nat × Nat)
  | [] => []
  | s :: rest => (List.range s.len).map (fun j => (i, j)) ++ indexPairsFrom (i + 1) rest

/-- `self.index_pairs`: every `(i, j)` with source number `i` and local
index `j`, enumerated in order. -/
def indexPairs {α : Type} (arr : MSA α) : List (Nat × Nat) :=
  indexPairsFrom 0 arr.sources

/-- Python list indexing semantics: nonnegative indices from the front,
negative indices wrap from the end, anything else is an `IndexError`. -/
def pyListGet {β : Type} (xs : List β) (i : Int) : Option β :=
  if 0 ≤ i then xs.get? i.toNat
  else if 0 ≤ i + xs.length then xs.get? (i + xs.length).toNat
  else none

/-- `hasattr(key, '__len__')`. -/
def hasLen : PyKey → Bool
  | .pList _ | .pTuple _ | .pIntArr _ | .pBoolArr _ => true
  | _ => false

/-- `isinstance(values, tuple) or isinstance(values, list)` - the guard
that enables the element-wise (zipped) remainder handling in
`_get_block`. -/
def isSeqLT : PyKey → Bool
  | .pList _ | .pTuple _ => true
  | _ => false

/-- `isinstance(key, tuple)`. -/
def isTup : PyKey → Bool
  | .pTuple _ => true
  | _ => false

/-- Iterating a key (`for k in key`, `key[0]`, `key[1:]`): lists and
tuples yield their parts, numpy arrays yield their scalar entries. -/
def comps : PyKey → List PyKey
  | .pList xs | .pTuple xs => xs
  | .pIntArr xs => xs.map .pInt
  | .pBoolArr bs => bs.map .pBool
  | _ => []

/-- `np.shape(k)` on the (rectangular) keys the code manipulates. -/
def npShape : PyKey → List Nat
  | .pList [] | .pTuple [] => [0]
  | .pList (x :: xs) => (xs.length + 1) :: npShape x
  | .pTuple (x :: xs) => (xs.length + 1) :: npShape x
  | .pIntArr xs => [xs.length]
  | .pBoolArr bs => [bs.length]
  | _ => []

/-- `np.size(k)`: the product of the shape. -/
def npSize (k : PyKey) : Nat := (npShape k).prod

/-- `len(k)`. -/
def pyLen (k : PyKey) : Nat := (npShape k).headD 0

/-- `hasattr(k, '__len__') and len(k) == np.size(k)`: the test under
which `_get_block` indexes a remainder component in tandem with the
primary indices. -/
def oneD (k : PyKey) : Bool := hasLen k && (pyLen k == npSize k)

/-- `k[i]` for a nonnegative position `i` (`None` models the
`IndexError` of an out-of-range lookup). -/
def compIdx (k : PyKey) (i : Nat) : Option PyKey :=
  match k with
  | .pList xs => xs.get? i
  | .pTuple xs => xs.get? i
  | .pIntArr xs => (xs.get? i).map .pInt
  | .pBoolArr bs => (bs.get? i).map .pBool
  | _ => none

/-- `key.nonzero()` for a 1-D boolean mask: the true-valued positions,
in their original order. -/
def truePositions (bs : List Bool) : List Nat :=
  (bs.enum.filterMap (fun p => if p.2 then some p.1 else none))

/-- A fail-fast sequential map into `Except` (the behaviour of a Python
loop whose body may raise). -/
def exList {β γ : Type} (f : β → Except PyErr γ) : List β → Except PyErr (List γ)
  | [] => Except.ok []
  | x :: xs =>
    match f x with
    | Except.error e => Except.error e
    | Except.ok y =>
      match exList f xs with
      | Except.error e => Except.error e
      | Except.ok ys => Except.ok (y :: ys)

/-- `self.source_list[source_num][idx]` with the local index and the
optional remainder: the final read of `_get_element`. -/
def srcRead {α : Type} (arr : MSA α) (sj : Nat × Nat) (rem : Option (List PyKey)) :
    Except PyErr α :=
  match arr.sources.get? sj.1 with
  | some src => Except.ok (src.elem sj.2 rem)
  | none => Except.error .outOfRange

/-- `multi_source_array._get_element`: only an integer key is accepted;
it is routed through `index_pairs` (with Python list indexing, so
negative keys wrap), and any trailing key remainder is passed through to
the underlying source. -/
def getElement {α : Type} (arr : MSA α) (k : PyKey) (rem : Option (List PyKey)) :
    Except PyErr α :=
  match k with
  | .pInt i =>
    match pyListGet (indexPairs arr) i with
    | some sj => srcRead arr sj rem
    | none => Except.error .outOfRange
  | _ => Except.error .cannotIndex

/-- The per-iteration remainder of `_get_block` when the primary index
container is a Python list or tuple: each remainder component that is a
1-D sequence (`len(k) == np.size(k)`) is replaced by its `i`-th entry,
every other component is kept whole. -/
def zipRem (rem : List PyKey) (i : Nat) : Except PyErr (List PyKey) :=
  exList (fun k =>
    if oneD k then
      match compIdx k i with
      | some k2 => Except.ok k2
      | none => Except.error .outOfRange
    else Except.ok k) rem

/-- The per-iteration remainder actually handed to `_get_element`:
zipped exactly when the primary container is a list/tuple (`lt`) and a
remainder exists, unchanged otherwise. -/
def stepRem (rem : Option (List PyKey)) (lt : Bool) (i : Nat) :
    Except PyErr (Option (List PyKey)) :=
  match rem, lt with
  | some r, true => (zipRem r i).map some
  | _, _ => Except.ok rem

/-- The loop body chain of `multi_source_array._get_block`: one
single-element read per primary index `v`, at enumeration position `i`,
with the remainder zipped only when the primary container was a
list/tuple (`lt`). -/
def getBlockGo {α : Type} (arr : MSA α) (lt : Bool) (rem : Option (List PyKey)) :
    Nat → List PyKey → Except PyErr (List α)
  | _, [] => Except.ok []
  | i, v :: vs =>
    match stepRem rem lt i with
    | Except.error e => Except.error e
    | Except.ok vrem =>
      match getElement arr v vrem with
      | Except.error e => Except.error e
      | Except.ok a =>
        match getBlockGo arr lt rem (i + 1) vs with
        | Except.error e => Except.error e
        | Except.ok rest => Except.ok (a :: rest)

/-- `multi_source_array._get_block`: repeated single-element reads
stacked into a freshly allocated buffer; an empty index list leaves
`item_block` as Python `None`. -/
def getBlock {α : Type} (arr : MSA α) (values : List PyKey) (lt : Bool)
    (rem : Option (List PyKey)) : Except PyErr (Item α) :=
  match getBlockGo arr lt rem 0 values with
  | Except.error e => Except.error e
  | Except.ok rows =>
    match rows with
    | [] => Except.ok .nil
    | r :: rs => Except.ok (.blk (r :: rs))

/-- `s != key_shapes[0]` test of `__getitem__`: all collected shapes must
equal the first. -/
def allEqHead : List (List Nat) → Bool
  | [] => true
  | s :: rest => rest.all (fun t => t == s)

/-- `range(lo, hi, st)` (Python): `none` models the `ValueError` raised
for a zero step. -/
def rangeList (lo hi st : Int) : Option (List Int) :=
  if st = 0 then none
  else if 0 < st then
    some ((List.range (if lo < hi then ((hi - lo - 1) / st).toNat + 1 else 0)).map
      (fun n : Nat => lo + st * (n : Int)))
  else
    some ((List.range (if hi < lo then ((lo - hi - 1) / (-st)).toNat + 1 else 0)).map
      (fun n : Nat => lo + st * (n : Int)))

/-- The first phase of `multi_source_array.__getitem__`: boolean-mask
conversion (rank check against `self.ndim`, then `nonzero()`), the
aggregate-key shape collection and mismatch check, the too-many-indices
check, and the split of a compound key into its first-dimension component
and the remainder tuple.  Only 1-D numpy arrays are representable here,
which is the only ndarray form the claims concern (so the non-boolean
`ndim > 1` rejection branch has no model counterpart). -/
def splitKey {α : Type} (arr : MSA α) (key : PyKey) :
    Except PyErr (PyKey × Option (List PyKey)) :=
  if hasLen key then
    match (match key with
           | .pBoolArr bs =>
             if (1 : Nat) ≠ ndim arr then Except.error .notEnough
             else Except.ok (PyKey.pTuple [.pIntArr ((truePositions bs).map (fun p : Nat => (p : Int)))])
           | k => Except.ok k) with
    | Except.error e => Except.error e
    | Except.ok keyA =>
      let shapes := ((comps keyA).filter hasLen).map npShape
      if allEqHead shapes then
        if ndim arr < shapes.length then Except.error .tooMany
        else if shapes.length ≠ 0 || isTup keyA then
          match (comps keyA).head? with
          | some k0 => Except.ok (k0, some ((comps keyA).drop 1))
          | none => Except.error .outOfRange
        else Except.ok (keyA, none)
      else Except.error .shapeMismatch
  else Except.ok (key, none)

/-- `multi_source_array.__getitem__`: key split, ellipsis expansion, and
dispatch to `_get_element` (integers), `_get_block` over the materialized
range (slices), or `_get_block` over the key's own entries (sequences). -/
def getItem {α : Type} (arr : MSA α) (key : PyKey) : Except PyErr (Item α) :=
  match splitKey arr key with
  | Except.error e => Except.error e
  | Except.ok (k1, rem1) =>
    let ke : PyKey × Option (List PyKey) :=
      match k1, rem1 with
      | .pEllip, some r =>
        (.pSlice (some 0) (some (msaLen arr)) none,
         if r.length < ndim arr - 1 then some (.pEllip :: r) else some r)
      | .pEllip, none => (.pSlice (some 0) (some (msaLen arr)) none, none)
      | k, rem => (k, rem)
    match ke.1 with
    | .pInt i =>
      match getElement arr (.pInt i) ke.2 with
      | Except.error e => Except.error e
      | Except.ok a => Except.ok (.el a)
    | .pSlice lo hi st =>
      match rangeList (lo.getD 0) (hi.getD (msaLen arr)) (st.getD 1) with
      | some vs => getBlock arr (vs.map .pInt) false ke.2
      | none => Except.error .valueErr
    | k =>
      if hasLen k then getBlock arr (comps k) (isSeqLT k) ke.2
      else Except.error .cannotIndex

/-! Supporting lemmas about the indexing embedding. -/

theorem exList_map {β γ δ : Type} (f : γ → Except PyErr δ) (g : β → γ) (l : List β) :
    exList f (l.map g) = exList (fun x => f (g x)) l := by
  induction l with
  | nil => rfl
  | cons x xs ih => simp only [List.map_cons, exList, ih]

theorem exList_congr {β γ : Type} {f g : β → Except PyErr γ} {l : List β}
    (h : ∀ x ∈ l, f x = g x) : exList f l = exList g l := by
  induction l with
  | nil => rfl
  | cons x xs ih =>
    simp only [exList, h x (by simp)]
    rw [ih (fun y hy => h y (by simp [hy]))]

theorem stepRem_none (lt : Bool) (i : Nat) : stepRem none lt i = Except.ok none := by
  cases lt <;> rfl

theorem stepRem_false (rem : Option (List PyKey)) (i : Nat) :
    stepRem rem false i = Except.ok rem := by
  cases rem <;> rfl

theorem stepRem_nil (i : Nat) : stepRem (some []) true i = Except.ok (some []) := rfl

theorem getBlockGo_none {α : Type} (arr : MSA α) (lt : Bool) (vs : List PyKey) :
    ∀ i, getBlockGo arr lt none i vs = exList (fun v => getElement arr v none) vs := by
  induction vs with
  | nil => intro i; rfl
  | cons v vs ih =>
    intro i
    simp only [getBlockGo, stepRem_none, exList, ih]

theorem getBlockGo_bcast {α : Type} (arr : MSA α) (r : List PyKey) (vs : List PyKey) :
    ∀ i, getBlockGo arr false (some r) i vs
      = exList (fun v => getElement arr v (some r)) vs := by
  induction vs with
  | nil => intro i; rfl
  | cons v vs ih =>
    intro i
    simp only [getBlockGo, stepRem_false, exList, ih]

theorem getBlockGo_nilRem {α : Type} (arr : MSA α) (vs : List PyKey) :
    ∀ i, getBlockGo arr true (some []) i vs
      = exList (fun v => getElement arr v (some [])) vs := by
  induction vs with
  | nil => intro i; rfl
  | cons v vs ih =>
    intro i
    simp only [getBlockGo, stepRem_nil, exList, ih]

theorem getBlockGo_len {α : Type} (arr : MSA α) (lt : Bool) (rem : Option (List PyKey)) :
    ∀ (vs : List PyKey) (i : Nat) (rows : List α),
      getBlockGo arr lt rem i vs = Except.ok rows → rows.length = vs.length := by
  intro vs
  induction vs with
  | nil =>
    intro i rows h
    simp only [getBlockGo] at h
    cases h
    rfl
  | cons v vs ih =>
    intro i rows h
    simp only [getBlockGo] at h
    split at h
    · cases h
    · split at h
      · cases h
      · split at h
        · cases h
        · cases h
          simp [ih (i + 1) _ (by assumption)]

theorem getBlock_cons {α : Type} (arr : MSA α) (v : PyKey) (vs : List PyKey) (lt : Bool)
    (rem : Option (List PyKey)) :
    getBlock arr (v :: vs) lt rem = Except.map Item.blk (getBlockGo arr lt rem 0 (v :: vs)) := by
  simp only [getBlock]
  rcases h : getBlockGo arr lt rem 0 (v :: vs) with _ | rows
  · rfl
  · cases rows with
    | nil =>
      have := getBlockGo_len arr lt rem (v :: vs) 0 [] h
      simp at this
    | cons r rs => rfl

theorem srcRead_congr {α : Type} (arr : MSA α) (sj : Nat × Nat)
    (r1 r2 : Option (List PyKey))
    (h : ∀ s ∈ arr.sources, ∀ j, s.elem j r1 = s.elem j r2) :
    srcRead arr sj r1 = srcRead arr sj r2 := by
  simp only [srcRead]
  cases hs : arr.sources.get? sj.1 with
  | none => rfl
  | some src => simp only [h src (List.get?_mem hs) sj.2]

theorem getElement_rem_congr {α : Type} (arr : MSA α) (k : PyKey)
    (r1 r2 : Option (List PyKey))
    (h : ∀ s ∈ arr.sources, ∀ j, s.elem j r1 = s.elem j r2) :
    getElement arr k r1 = getElement arr k r2 := by
  cases k <;> try rfl
  case pInt i =>
    simp only [getElement]
    cases hp : pyListGet (indexPairs arr) i with
    | none => rfl
    | some sj => exact srcRead_congr arr sj r1 r2 h

theorem indexPairsFrom_length {α : Type} (l : List (Src α)) :
    ∀ i, (indexPairsFrom i l).length = (l.map Src.len).sum := by
  induction l with
  | nil => intro i; rfl
  | cons s rest ih => intro i; simp [indexPairsFrom, ih]

theorem indexPairs_length {α : Type} (arr : MSA α) :
    (indexPairs arr).length = msaLen arr :=
  indexPairsFrom_length arr.sources 0

theorem indexPairsFrom_fst_lt {α : Type} (l : List (Src α)) :
    ∀ i p, p ∈ indexPairsFrom i l → p.1 < i + l.length := by
  induction l with
  | nil => intro i p h; cases h
  | cons s rest ih =>
    intro i p h
    simp only [indexPairsFrom, List.mem_append, List.mem_map, List.mem_range] at h
    rcases h with ⟨j, _, rfl⟩ | h
    · simp only [List.length_cons]
      omega
    · have := ih (i + 1) p h
      simp only [List.length_cons]
      omega

theorem indexPairs_src_lt {α : Type} (arr : MSA α) (p : Nat × Nat)
    (h : p ∈ indexPairs arr) : p.1 < arr.sources.length := by
  have := indexPairsFrom_fst_lt arr.sources 0 p h
  omega

theorem ndim_pos {α : Type} (arr : MSA α) : 1 ≤ ndim arr := by
  simp only [ndim]
  omega

theorem npShape_pList_int (ys : List Int) :
    npShape (.pList (ys.map .pInt)) = [ys.length] := by
  cases ys with
  | nil => rfl
  | cons y ys => simp [npShape]

theorem oneD_pList_int (ys : List Int) : oneD (.pList (ys.map .pInt)) = true := by
  simp [oneD, hasLen, pyLen, npSize, npShape_pList_int]

theorem rangeList_nat_one (a b : Nat) (h : a < b) :
    rangeList a b 1 = some ((List.range (b - a)).map (fun n : Nat => (a : Int) + (n : Int))) := by
  simp only [rangeList, if_neg (by omega : ¬ (1 : Int) = 0), if_pos (by omega : (0 : Int) < 1)]
  have hlt : (a : Int) < (b : Int) := by omega
  rw [if_pos hlt]
  have hc : (((b : Int) - a - 1) / 1).toNat + 1 = b - a := by omega
  rw [hc]
  simp

/-! How `splitKey` and `getItem` reduce on the key families the claims
are about. -/

theorem splitKey_noLen {α : Type} (arr : MSA α) (key : PyKey) (h : hasLen key = false) :
    splitKey arr key = Except.ok (key, none) := by
  simp [splitKey, h]

theorem splitKey_boolArr_rank {α : Type} (arr : MSA α) (bs : List Bool)
    (hnd : ndim arr ≠ 1) :
    splitKey arr (.pBoolArr bs) = Except.error .notEnough := by
  simp only [splitKey, hasLen, if_true]
  rw [if_pos (by omega : (1 : Nat) ≠ ndim arr)]

theorem splitKey_boolArr_ok {α : Type} (arr : MSA α) (bs : List Bool)
    (hnd : ndim arr = 1) :
    splitKey arr (.pBoolArr bs)
      = Except.ok (.pIntArr ((truePositions bs).map (fun p : Nat => (p : Int))), some []) := by
  have hol : hasLen (.pBoolArr bs) = true := rfl
  simp only [splitKey, hol, if_true]
  rw [if_neg (by omega : ¬ (1 : Nat) ≠ ndim arr)]
  have hc : comps (.pTuple [PyKey.pIntArr ((truePositions bs).map (fun p : Nat => (p : Int)))])
      = [PyKey.pIntArr ((truePositions bs).map (fun p : Nat => (p : Int)))] := rfl
  have hl2 : hasLen (PyKey.pIntArr ((truePositions bs).map (fun p : Nat => (p : Int)))) = true := rfl
  simp only [hc, List.filter_cons, hl2, if_true, List.filter_nil, List.map,
    allEqHead, List.all_nil]
  rw [if_neg (by simp only [List.length_cons, List.length_nil, hnd]; omega)]
  simp [isTup]

theorem splitKey_intList {α : Type} (arr : MSA α) (xs : List Int) :
    splitKey arr (.pList (xs.map .pInt)) = Except.ok (.pList (xs.map .pInt), none) := by
  have hfil : (xs.map PyKey.pInt).filter hasLen = [] := by
    rw [List.filter_map]
    have h0 : xs.filter (hasLen ∘ PyKey.pInt) = [] := by
      simp [Function.comp, hasLen]
    rw [h0]
    rfl
  have hol : hasLen (.pList (xs.map .pInt)) = true := rfl
  have hc : comps (.pList (xs.map PyKey.pInt)) = xs.map PyKey.pInt := rfl
  have hit : isTup (.pList (xs.map PyKey.pInt)) = false := rfl
  simp only [splitKey, hol, if_true, hc, hfil, List.map_nil, allEqHead,
    List.length_nil, hit]
  simp

theorem splitKey_one_sub {α : Type} (arr : MSA α) (k : PyKey) (hk : hasLen k = true) :
    splitKey arr (.pList [k]) = Except.ok (k, some []) := by
  have hol : hasLen (.pList [k]) = true := rfl
  have hc : comps (.pList [k]) = [k] := rfl
  have hit : isTup (.pList [k]) = false := rfl
  simp only [splitKey, hol, if_true, hc, List.filter_cons, hk, List.filter_nil,
    List.map, allEqHead, List.all_nil, hit]
  have hnd1 : ¬ ndim arr < [npShape k].length := by
    simp only [List.length_cons, List.length_nil]
    have := ndim_pos arr
    omega
  rw [if_neg hnd1]
  simp

theorem splitKey_tuple2 {α : Type} (arr : MSA α) (k1 k2 : PyKey)
    (h1 : hasLen k1 = false) (h2 : hasLen k2 = true) :
    splitKey arr (.pTuple [k1, k2]) = Except.ok (k1, some [k2]) := by
  have hol : hasLen (.pTuple [k1, k2]) = true := rfl
  have hc : comps (.pTuple [k1, k2]) = [k1, k2] := rfl
  have hit : isTup (.pTuple [k1, k2]) = true := rfl
  simp only [splitKey, hol, if_true, hc, List.filter_cons, h1, h2, List.filter_nil,
    List.map, allEqHead, List.all_nil, hit]
  have hnd1 : ¬ ndim arr < [npShape k2].length := by
    simp only [List.length_cons, List.length_nil]
    have := ndim_pos arr
    omega
  rw [if_neg hnd1]
  simp

theorem splitKey_tuple2LL {α : Type} (arr : MSA α) (k1 k2 : PyKey)
    (h1 : hasLen k1 = true) (h2 : hasLen k2 = true)
    (hsh : (npShape k2 == npShape k1) = true)
    (hnd : ¬ ndim arr < 2) :
    splitKey arr (.pTuple [k1, k2]) = Except.ok (k1, some [k2]) := by
  have hol : hasLen (.pTuple [k1, k2]) = true := rfl
  have hc : comps (.pTuple [k1, k2]) = [k1, k2] := rfl
  have hit : isTup (.pTuple [k1, k2]) = true := rfl
  simp only [splitKey, hol, if_true, hc, List.filter_cons, h1, h2, List.filter_nil,
    List.map, allEqHead, List.all, hsh, Bool.and_true, Bool.true_and, hit]
  rw [if_neg (by simp only [List.length_cons, List.length_nil]; omega)]
  simp

theorem splitKey_tuple2_mismatch {α : Type} (arr : MSA α) (k1 k2 : PyKey)
    (h1 : hasLen k1 = true) (h2 : hasLen k2 = true)
    (hsh : (npShape k2 == npShape k1) = false) :
    splitKey arr (.pTuple [k1, k2]) = Except.error .shapeMismatch := by
  have hol : hasLen (.pTuple [k1, k2]) = true := rfl
  have hc : comps (.pTuple [k1, k2]) = [k1, k2] := rfl
  simp only [splitKey, hol, if_true, hc, List.filter_cons, h1, h2, List.filter_nil,
    List.map, allEqHead, List.all, hsh, Bool.and_true, Bool.true_and, Bool.false_and,
    Bool.and_false]
  simp

theorem getItem_int {α : Type} (arr : MSA α) (i : Int) :
    getItem arr (.pInt i) = Except.map Item.el (getElement arr (.pInt i) none) := by
  simp only [getItem, splitKey_noLen arr (.pInt i) rfl]
  cases h : getElement arr (.pInt i) none <;> simp [h, Except.map]

theorem getItem_slice_pos {α : Type} (arr : MSA α) (a b : Nat) (hab : a < b) :
    getItem arr (.pSlice (some (a : Int)) (some (b : Int)) none)
      = getBlock arr (((List.range (b - a)).map (fun n : Nat => (a : Int) + (n : Int))).map .pInt)
          false none := by
  simp only [getItem, splitKey_noLen arr (.pSlice (some (a : Int)) (some (b : Int)) none) rfl,
    Option.getD_some, Option.getD_none, rangeList_nat_one a b hab]

theorem getItem_boolArr_rank {α : Type} (arr : MSA α) (bs : List Bool)
    (hnd : ndim arr ≠ 1) :
    getItem arr (.pBoolArr bs) = Except.error .notEnough := by
  simp only [getItem, splitKey_boolArr_rank arr bs hnd]

theorem getItem_boolArr_ndim1 {α : Type} (arr : MSA α) (bs : List Bool)
    (hnd : ndim arr = 1) :
    getItem arr (.pBoolArr bs)
      = getBlock arr (((truePositions bs).map (fun p : Nat => (p : Int))).map .pInt) false (some []) := by
  simp only [getItem, splitKey_boolArr_ok arr bs hnd, comps, isSeqLT, hasLen, if_true]

theorem getItem_intList {α : Type} (arr : MSA α) (xs : List Int) :
    getItem arr (.pList (xs.map .pInt)) = getBlock arr (xs.map .pInt) true none := by
  simp only [getItem, splitKey_intList arr xs, comps, isSeqLT, hasLen, if_true]

theorem getItem_nested1 {α : Type} (arr : MSA α) (xs : List Int) :
    getItem arr (.pList [.pList (xs.map .pInt)])
      = getBlock arr (xs.map .pInt) true (some []) := by
  simp only [getItem, splitKey_one_sub arr (.pList (xs.map .pInt)) rfl, comps,
    isSeqLT, hasLen, if_true]

theorem getItem_nested2 {α : Type} (arr : MSA α) (xs : List Int) :
    getItem arr (.pList [.pList [.pList (xs.map .pInt)]])
      = Except.error .cannotIndex := by
  simp only [getItem, splitKey_one_sub arr (.pList [.pList (xs.map .pInt)]) rfl, comps,
    isSeqLT, hasLen, if_true]
  simp [getBlock, getBlockGo, stepRem_nil, getElement]

theorem getBlock_ne {α : Type} (arr : MSA α) (values : List PyKey) (lt : Bool)
    (rem : Option (List PyKey)) (h : values ≠ []) :
    getBlock arr values lt rem = Except.map Item.blk (getBlockGo arr lt rem 0 values) := by
  rcases values with _ | ⟨v, vs⟩
  · exact absurd rfl h
  · exact getBlock_cons arr v vs lt rem

theorem getBlockGo_zip1 {α : Type} (arr : MSA α) (ys : List Int) (vs : List PyKey) :
    ∀ i, i + vs.length ≤ ys.length →
      getBlockGo arr true (some [.pList (ys.map .pInt)]) i vs
        = exList (fun p => getElement arr p.1 (some [p.2]))
            (vs.zip ((ys.map .pInt).drop i)) := by
  induction vs with
  | nil =>
    intro i h
    simp [getBlockGo, exList]
  | cons v vs ih =>
    intro i h
    have hi : i < ys.length := by
      simp only [List.length_cons] at h
      omega
    have hi2 : i < (ys.map PyKey.pInt).length := by
      simp only [List.length_map]
      omega
    have hget : (ys.map PyKey.pInt).get? i = some (.pInt (ys.get ⟨i, hi⟩)) := by
      rw [List.get?_map, List.get?_eq_get hi]
      rfl
    have hstep : stepRem (some [.pList (ys.map .pInt)]) true i
        = Except.ok (some [.pInt (ys.get ⟨i, hi⟩)]) := by
      simp only [stepRem, zipRem, exList, oneD_pList_int, if_true, compIdx, hget]
      rfl
    have hdrop : (ys.map PyKey.pInt).drop i
        = .pInt (ys.get ⟨i, hi⟩) :: (ys.map PyKey.pInt).drop (i + 1) := by
      rw [List.drop_eq_getElem_cons hi2]
      congr 1
      simp [List.getElem_map]
    rw [hdrop]
    have hrec : i + 1 + vs.length ≤ ys.length := by
      simp only [List.length_cons] at h
      omega
    simp only [getBlockGo, hstep, List.zip_cons_cons, exList, ih (i + 1) hrec]
    rfl

theorem rangeList_zero_top (L : Nat) (hL : 0 < L) :
    rangeList 0 (L : Int) 1 = some ((List.range L).map (fun n : Nat => (n : Int))) := by
  have h := rangeList_nat_one 0 L hL
  simpa using h

theorem getItem_tuple_LL {α : Type} (arr : MSA α) (xs ys : List Int)
    (hlen : ys.length = xs.length) (hnd : 2 ≤ ndim arr) :
    getItem arr (.pTuple [.pList (xs.map .pInt), .pList (ys.map .pInt)])
      = getBlock arr (xs.map .pInt) true (some [.pList (ys.map .pInt)]) := by
  have hsp := splitKey_tuple2LL arr (.pList (xs.map .pInt)) (.pList (ys.map .pInt)) rfl rfl
      (by simp [npShape_pList_int, hlen]) (by omega)
  simp only [getItem, hsp, comps, isSeqLT, hasLen, if_true]

theorem getItem_tuple_mismatch {α : Type} (arr : MSA α) (xs ys : List Int)
    (hlen : ys.length ≠ xs.length) :
    getItem arr (.pTuple [.pList (xs.map .pInt), .pList (ys.map .pInt)])
      = Except.error .shapeMismatch := by
  have hsh : (npShape (.pList (ys.map .pInt)) == npShape (.pList (xs.map .pInt))) = false := by
    simp [npShape_pList_int, beq_eq_false_iff_ne, hlen]
  have hsp := splitKey_tuple2_mismatch arr (.pList (xs.map .pInt)) (.pList (ys.map .pInt))
      rfl rfl hsh
  simp only [getItem, hsp]

theorem getItem_tuple_slice_bcast {α : Type} (arr : MSA α) (ys : List Int)
    (hL : 0 < msaLen arr) :
    getItem arr (.pTuple [.pSlice none none none, .pList (ys.map .pInt)])
      = getBlock arr (((List.range (msaLen arr)).map (fun n : Nat => (n : Int))).map .pInt)
          false (some [.pList (ys.map .pInt)]) := by
  have hsp := splitKey_tuple2 arr (.pSlice none none none) (.pList (ys.map .pInt)) rfl rfl
  simp only [getItem, hsp, Option.getD_none, rangeList_zero_top (msaLen arr) hL]

theorem getElement_nat_ok {α : Type} (arr : MSA α) (n : Nat) (hn : n < msaLen arr)
    (rem : Option (List PyKey)) :
    ∃ a : α, getElement arr (.pInt (n : Int)) rem = Except.ok a := by
  have hlen := indexPairs_length arr
  cases hq : (indexPairs arr).get? n with
  | none =>
    rw [List.get?_eq_none] at hq
    omega
  | some p =>
    have hmem : p ∈ indexPairs arr := List.get?_mem hq
    have hsrc : p.1 < arr.sources.length := indexPairs_src_lt arr p hmem
    cases hs : arr.sources.get? p.1 with
    | none =>
      rw [List.get?_eq_none] at hs
      omega
    | some src =>
      refine ⟨src.elem p.2 rem, ?_⟩
      simp only [getElement, pyListGet]
      rw [if_pos (by omega : (0 : Int) ≤ (n : Int))]
      have ht : ((n : Int)).toNat = n := by omega
      rw [ht, hq]
      simp only [srcRead, hs]

/-! Concrete composites used as instances below. -/

/-- A two-element source of scalar elements (trailing shape `()`): the
element at local index `j` is `j` itself, whatever the sub-key. -/
def natSrc : Src Nat := ⟨2, [], fun j _ => j⟩

/-- A composite over `natSrc` alone: `length() = 2`, `ndim = 1`. -/
def natArr : MSA Nat := ⟨[natSrc]⟩

/-- A two-element source whose elements carry a trailing shape `(3,)`,
so a composite over it has `ndim = 2`. -/
def natSrc2 : Src Nat := ⟨2, [3], fun j _ => j⟩

/-- A composite over `natSrc2`: `length() = 2`, `ndim = 2`. -/
def natArr2 : MSA Nat := ⟨[natSrc2]⟩

/-- Code of the remainder a source read receives: `-1` for no remainder,
`-2` for an empty remainder tuple, `i ≥ 0` for the single integer
sub-key `i`, `-3` for a single list-valued sub-key, `-9` otherwise. -/
def remCode : Option (List PyKey) → Int
  | none => -1
  | some [] => -2
  | some [.pInt i] => i
  | some [.pList _] => -3
  | some _ => -9

/-- A recording source: each read returns the local index paired with
the code of the remainder it was given. -/
def recSrc : Src (Nat × Int) := ⟨2, [], fun j r => (j, remCode r)⟩

/-- Recording composite with `ndim = 1`. -/
def recArr : MSA (Nat × Int) := ⟨[recSrc]⟩

/-- A recording source with trailing shape `(3,)`. -/
def recSrc2 : Src (Nat × Int) := ⟨2, [3], fun j r => (j, remCode r)⟩

/-- Recording composite with `ndim = 2`. -/
def recArr2 : MSA (Nat × Int) := ⟨[recSrc2]⟩

/-! The claims about `multi_source_array`. -/

/-- C2 counterexample: on a 1-D composite of length 2, `get` with the
boolean mask `[True]` of length 1 (different from `length() = 2`) does
not fail with any error: it returns the element at position 0. -/
theorem c2_mask_length_counterexample :
    msaLen natArr = 2
    ∧ getItem natArr (.pBoolArr [true]) = Except.ok (Item.blk [0]) := by
  exact ⟨rfl, rfl⟩

/-- C2 (amended): a boolean mask is checked only for rank
(`key.ndim != self.ndim`), never for length.  When the composite is 1-D,
`get` selects the elements at the mask's true-valued positions in their
original order - whatever the mask's length; when the composite's `ndim`
differs from 1, a 1-D mask fails with the not-enough-indices rank
error. -/
theorem c2_mask_semantics {α : Type} (arr : MSA α) (bs : List Bool)
    (hne : truePositions bs ≠ []) :
    (ndim arr = 1 →
      getItem arr (.pBoolArr bs)
        = Except.map Item.blk
            (exList (fun p : Nat => getElement arr (.pInt (p : Int)) (some []))
              (truePositions bs)))
    ∧ (ndim arr ≠ 1 → getItem arr (.pBoolArr bs) = Except.error .notEnough) := by
  constructor
  · intro hnd
    rw [getItem_boolArr_ndim1 arr bs hnd,
        getBlock_ne arr _ false (some [])
          (by intro hcon; rw [List.map_eq_nil_iff, List.map_eq_nil_iff] at hcon; exact hne hcon),
        getBlockGo_bcast, exList_map, exList_map]
  · exact fun hnd => getItem_boolArr_rank arr bs hnd

/-- C2 witness: the amended statement evaluated at the 1-D composite
`natArr` with mask `[False, True]`, and at the 2-D composite `natArr2`. -/
theorem c2_mask_semantics_witness :
    getItem natArr (.pBoolArr [false, true]) = Except.ok (Item.blk [1])
    ∧ getItem natArr2 (.pBoolArr [false, true]) = Except.error .notEnough := by
  have h1 := c2_mask_semantics natArr [false, true] (by decide)
  have h2 := c2_mask_semantics natArr2 [false, true] (by decide)
  constructor
  · rw [h1.1 (by decide)]
    decide
  · exact h2.2 (by decide)

/-- C3 counterexample: a slice primary selecting 2 rows with a length-2
list remainder is broadcast whole to each row (both rows receive the
full list, coded `-3`), not zipped element-wise (which would hand row 0
the sub-key 5 and row 1 the sub-key 6). -/
theorem c3_broadcast_counterexample :
    getItem recArr (.pTuple [.pSlice none none none, .pList [.pInt 5, .pInt 6]])
      = Except.ok (Item.blk [(0, -3), (1, -3)])
    ∧ (Except.ok (Item.blk [(0, -3), (1, -3)]) : Except PyErr (Item (Nat × Int)))
        ≠ Except.ok (Item.blk [(0, 5), (1, 6)]) := by
  constructor
  · rfl
  · decide

/-- C3 (amended): a list remainder component is applied element-wise
exactly when the primary component is itself a Python list (or tuple);
its length then necessarily equals the primary's, because the aggregate
shape check fails with a shape-mismatch error - rather than
broadcasting - whenever the lengths differ.  Under a slice primary, a
list remainder is broadcast whole to every selected row even when its
length equals the row count. -/
theorem c3_remainder_semantics {α : Type} (arr : MSA α) (xs ys : List Int) :
    (xs ≠ [] → ys.length = xs.length → 2 ≤ ndim arr →
      getItem arr (.pTuple [.pList (xs.map .pInt), .pList (ys.map .pInt)])
        = Except.map Item.blk
            (exList (fun p => getElement arr (.pInt p.1) (some [.pInt p.2]))
              (xs.zip ys)))
    ∧ (ys.length ≠ xs.length →
      getItem arr (.pTuple [.pList (xs.map .pInt), .pList (ys.map .pInt)])
        = Except.error .shapeMismatch)
    ∧ (0 < msaLen arr →
      getItem arr (.pTuple [.pSlice none none none, .pList (ys.map .pInt)])
        = Except.map Item.blk
            (exList (fun i => getElement arr (.pInt i) (some [.pList (ys.map .pInt)]))
              ((List.range (msaLen arr)).map (fun n : Nat => (n : Int))))) := by
  refine ⟨?_, ?_, ?_⟩
  · intro hxe hlen hnd
    rw [getItem_tuple_LL arr xs ys hlen hnd,
        getBlock_ne arr _ true _
          (by intro hcon; rw [List.map_eq_nil_iff] at hcon; exact hxe hcon),
        getBlockGo_zip1 arr ys _ 0 (by simp [hlen]),
        List.drop_zero, List.zip_map, exList_map]
    simp [Prod.map_fst, Prod.map_snd]
  · exact fun hlen => getItem_tuple_mismatch arr xs ys hlen
  · intro hL
    have hneval : ((List.range (msaLen arr)).map (fun n : Nat => (n : Int))).map PyKey.pInt ≠ [] := by
      intro hcon
      rw [List.map_eq_nil_iff, List.map_eq_nil_iff, List.range_eq_nil] at hcon
      omega
    rw [getItem_tuple_slice_bcast arr ys hL,
        getBlock_ne arr _ false _ hneval,
        getBlockGo_bcast, exList_map]

/-- C3 witness: the amended statement evaluated on the recording 2-D
composite: zipped at equal lengths under a list primary, shape-mismatch
error at unequal lengths, broadcast under a slice primary. -/
theorem c3_remainder_semantics_witness :
    getItem recArr2 (.pTuple [.pList (([0, 1] : List Int).map PyKey.pInt),
        .pList (([5, 6] : List Int).map PyKey.pInt)])
      = Except.ok (Item.blk [(0, 5), (1, 6)])
    ∧ getItem recArr2 (.pTuple [.pList (([0, 1] : List Int).map PyKey.pInt),
        .pList (([5] : List Int).map PyKey.pInt)])
      = Except.error .shapeMismatch
    ∧ getItem recArr2 (.pTuple [.pSlice none none none,
        .pList (([5, 6] : List Int).map PyKey.pInt)])
      = Except.ok (Item.blk [(0, -3), (1, -3)]) := by
  have h56 := c3_remainder_semantics recArr2 [0, 1] [5, 6]
  have h5 := c3_remainder_semantics recArr2 [0, 1] [5]
  refine ⟨?_, ?_, ?_⟩
  · rw [h56.1 (by decide) (by decide) (by decide)]
    decide
  · exact h5.2.1 (by decide)
  · rw [h56.2.2 (by decide)]
    decide

/-- C5 counterexample: at `a = b` the code returns Python `None`
(`_get_block` leaves `item_block` unallocated for an empty index range),
which is not an empty stacked block, so the claim's `a ≤ b` range fails
at `a = b`. -/
theorem c5_empty_slice_counterexample :
    getItem natArr (.pSlice (some 0) (some 0) none) = Except.ok Item.nil
    ∧ (Except.ok Item.nil : Except PyErr (Item Nat)) ≠ Except.ok (Item.blk []) := by
  constructor
  · rfl
  · decide

/-- C5 (amended): for `0 ≤ a < b ≤ length()`, `arr[a:b]` is exactly the
stack of the rows `arr[a], …, arr[b-1]`, each row produced by an
independent single-element `_get_element` lookup - and an integer `get`
is itself exactly that single lookup. -/
theorem c5_slice_stack {α : Type} (arr : MSA α) (a b : Nat) (hab : a < b)
    (hb : b ≤ msaLen arr) :
    (getItem arr (.pSlice (some ((a : Nat) : Int)) (some ((b : Nat) : Int)) none)
      = Except.map Item.blk
          (exList (fun i => getElement arr (.pInt i) none)
            ((List.range (b - a)).map (fun n : Nat => (a : Int) + (n : Int)))))
    ∧ (∀ i : Int, getItem arr (.pInt i)
        = Except.map Item.el (getElement arr (.pInt i) none)) := by
  refine ⟨?_, fun i => getItem_int arr i⟩
  have hneval : ((List.range (b - a)).map (fun n : Nat => (a : Int) + (n : Int))).map PyKey.pInt ≠ [] := by
    intro hcon
    rw [List.map_eq_nil_iff, List.map_eq_nil_iff, List.range_eq_nil] at hcon
    omega
  rw [getItem_slice_pos arr a b hab,
      getBlock_ne arr _ false none hneval,
      getBlockGo_none, exList_map]

/-- C5 witness: the amended statement evaluated at `natArr` with
`a = 0 < b = 2 = length()`. -/
theorem c5_slice_stack_witness :
    getItem natArr (.pSlice (some ((0 : Nat) : Int)) (some ((2 : Nat) : Int)) none)
      = Except.ok (Item.blk [0, 1])
    ∧ getItem natArr (.pInt 0) = Except.ok (Item.el 0) := by
  have h := c5_slice_stack natArr 0 2 (by omega) (by decide)
  constructor
  · rw [h.1]
    decide
  · rw [h.2 0]
    decide

/-- C6: a flat integer-list key and its singly nested form are treated
identically - for sources, such as numpy arrays, on which the length-one
tuple key `(j,)` reads the same element as the bare integer `j` - while
the doubly nested (excess-dimension) form fails with an index error. -/
theorem c6_nesting {α : Type} (arr : MSA α) (xs : List Int)
    (hsrc : ∀ s ∈ arr.sources, ∀ j, s.elem j none = s.elem j (some []))
    (hx : ∀ x ∈ xs, 0 ≤ x ∧ x < (msaLen arr : Int)) :
    getItem arr (.pList (xs.map .pInt)) = getItem arr (.pList [.pList (xs.map .pInt)])
    ∧ getItem arr (.pList [.pList [.pList (xs.map .pInt)]])
        = Except.error .cannotIndex := by
  constructor
  · rw [getItem_intList, getItem_nested1]
    have hgo : getBlockGo arr true none 0 (xs.map PyKey.pInt)
        = getBlockGo arr true (some []) 0 (xs.map PyKey.pInt) := by
      rw [getBlockGo_none, getBlockGo_nilRem]
      exact exList_congr (fun v _ => getElement_rem_congr arr v none (some []) hsrc)
    simp only [getBlock, hgo]
  · exact getItem_nested2 arr xs

/-- C6 witness: the statement evaluated at `natArr` with the index list
`[1, 0]`. -/
theorem c6_nesting_witness :
    getItem natArr (.pList (([1, 0] : List Int).map PyKey.pInt))
      = getItem natArr (.pList [.pList (([1, 0] : List Int).map PyKey.pInt)])
    ∧ getItem natArr (.pList [.pList [.pList (([1, 0] : List Int).map PyKey.pInt)]])
      = Except.error .cannotIndex := by
  refine c6_nesting natArr [1, 0] ?_ ?_
  · intro s hs j
    have hs2 : s = natSrc := by
      simpa [natArr] using hs
    subst hs2
    rfl
  · decide

/-- C9: for `1 ≤ k ≤ length()`, the negative integer key `-k` is routed
through Python list indexing of `index_pairs` and therefore reads the
same element as the key `length() - k`; the lookup succeeds and returns
a single element. -/
theorem c9_negative_index {α : Type} (arr : MSA α) (k : Nat) (hk1 : 1 ≤ k)
    (hk2 : k ≤ msaLen arr) :
    getItem arr (.pInt (-(k : Int))) = getItem arr (.pInt ((msaLen arr - k : Nat) : Int))
    ∧ ∃ a : α, getItem arr (.pInt (-(k : Int))) = Except.ok (.el a) := by
  have hlen := indexPairs_length arr
  have hwrap : pyListGet (indexPairs arr) (-(k : Int))
      = pyListGet (indexPairs arr) ((msaLen arr - k : Nat) : Int) := by
    simp only [pyListGet, hlen]
    rw [if_neg (by omega), if_pos (by omega), if_pos (by omega)]
    congr 1
    omega
  have hg : getElement arr (.pInt (-(k : Int))) none
      = getElement arr (.pInt ((msaLen arr - k : Nat) : Int)) none := by
    simp only [getElement, hwrap]
  refine ⟨?_, ?_⟩
  · rw [getItem_int, getItem_int, hg]
  · obtain ⟨a, ha⟩ := getElement_nat_ok arr (msaLen arr - k) (by omega) none
    refine ⟨a, ?_⟩
    rw [getItem_int, hg, ha]
    rfl

/-- C9 witness: `natArr[-1]` equals `natArr[1]` and returns element 1. -/
theorem c9_negative_index_witness :
    getItem natArr (.pInt (-((1 : Nat) : Int)))
      = getItem natArr (.pInt ((msaLen natArr - 1 : Nat) : Int))
    ∧ ∃ a : Nat, getItem natArr (.pInt (-((1 : Nat) : Int))) = Except.ok (.el a) :=
  c9_negative_index natArr 1 (by omega) (by decide)

/-! Embedding of `data_flow` batching (`src/io.py`).  `__init__` checks
all sources have the length of the first and computes
`num_batches = L//B (+1 if L%B > 0)`; `_preload_subroutine` walks the
sequential index order (`shuffle=False`) in chunks
`indices[b*bs:(b+1)*bs]` and gathers, per source, the elements at the
chunk's indices. -/

/-- `self.num_batches`. -/
def numBatches (L B : Nat) : Nat := L / B + (if L % B > 0 then 1 else 0)

/-- The (unshuffled) index chunk `indices[b*bs:(b+1)*bs]` of batch `b`. -/
def batchIdx (L B b : Nat) : List Nat := ((List.range L).drop (b * B)).take B

/-- One epoch of the loader: for each batch number, the per-source
element lists gathered at the chunk's indices.  With `nb_workers = 1`,
FIFO queues, and the identity `_process_batch`, the batches reach the
consumer of `flow()` in this same enqueue order, so this is the yielded
sequence of one epoch. -/
def epochBatches {α : Type} [Inhabited α] (dat : List (List α)) (B : Nat) :
    List (List (List α)) :=
  (List.range (numBatches (dat.headD []).length B)).map
    (fun b => dat.map (fun d => (batchIdx (dat.headD []).length B b).map
      (fun i => d.getD i default)))

theorem batchIdx_length (L B b : Nat) :
    (batchIdx L B b).length = min B (L - b * B) := by
  simp [batchIdx]

theorem numBatches_ceil (L B : Nat) (hB : 0 < B) :
    numBatches L B = (L + B - 1) / B := by
  have hd := Nat.div_add_mod L B
  have hr := Nat.mod_lt L hB
  by_cases hr0 : L % B = 0
  · have h1 : L + B - 1 = B - 1 + B * (L / B) := by omega
    rw [numBatches, if_neg (by omega), h1,
      Nat.add_mul_div_left (B - 1) (L / B) hB,
      Nat.div_eq_of_lt (show B - 1 < B by omega)]
    omega
  · have hq1 : B * (L / B + 1) = B * (L / B) + B := by ring
    have h1 : L + B - 1 = L % B - 1 + B * (L / B + 1) := by omega
    rw [numBatches, if_pos (by omega), h1,
      Nat.add_mul_div_left (L % B - 1) (L / B + 1) hB,
      Nat.div_eq_of_lt (show L % B - 1 < B by omega)]
    omega

theorem le_numBatches_mul (L B : Nat) (hB : 0 < B) : L ≤ numBatches L B * B := by
  have hd := Nat.div_add_mod L B
  have hr := Nat.mod_lt L hB
  by_cases hr0 : L % B = 0
  · have h1 : numBatches L B * B = L / B * B := by
      rw [numBatches, if_neg (by omega)]
      ring
    have h2 : L / B * B = B * (L / B) := Nat.mul_comm _ _
    omega
  · have h1 : numBatches L B * B = L / B * B + B := by
      rw [numBatches, if_pos (by omega)]
      ring
    have h2 : L / B * B = B * (L / B) := Nat.mul_comm _ _
    omega

theorem chunk_len_full (L B b : Nat) (hB : 0 < B) (hb : b + 1 < numBatches L B) :
    min B (L - b * B) = B := by
  have hd := Nat.div_add_mod L B
  have hr := Nat.mod_lt L hB
  have hmul : (b + 1) * B = b * B + B := by ring
  have hcomm : L / B * B = B * (L / B) := Nat.mul_comm _ _
  by_cases hr0 : L % B = 0
  · have hnb : numBatches L B = L / B := by
      rw [numBatches, if_neg (by omega)]
      omega
    have h1 : (b + 1) * B ≤ L / B * B :=
      Nat.mul_le_mul_right B (by omega)
    omega
  · have hnb : numBatches L B = L / B + 1 := by
      rw [numBatches, if_pos (by omega)]
    have h1 : (b + 1) * B ≤ L / B * B :=
      Nat.mul_le_mul_right B (by omega)
    omega

theorem chunk_len_last (L B : Nat) (hB : 0 < B) (hL : 0 < L) :
    min B (L - (numBatches L B - 1) * B)
      = (if L % B = 0 then B else L % B) := by
  have hd := Nat.div_add_mod L B
  have hr := Nat.mod_lt L hB
  have hcomm : L / B * B = B * (L / B) := Nat.mul_comm _ _
  by_cases hr0 : L % B = 0
  · have hq1 : 1 ≤ L / B := by
      rcases Nat.eq_zero_or_pos (L / B) with h0 | h1
      · rw [h0] at hd
        omega
      · exact h1
    have hnb : numBatches L B = L / B := by
      rw [numBatches, if_neg (by omega)]
      omega
    have h3 : (L / B - 1) * B + B = L / B * B := by
      have h4 : L / B - 1 + 1 = L / B := Nat.sub_add_cancel hq1
      calc (L / B - 1) * B + B = (L / B - 1 + 1) * B := by ring
        _ = L / B * B := by rw [h4]
    rw [if_pos hr0, hnb]
    omega
  · have hnb : numBatches L B = L / B + 1 := by
      rw [numBatches, if_pos (by omega)]
    rw [if_neg hr0, hnb]
    simp only [Nat.add_sub_cancel]
    omega

theorem chunks_flatten {γ : Type} (B : Nat) :
    ∀ (n : Nat) (l : List γ), l.length ≤ n * B →
      ((List.range n).map (fun b => (l.drop (b * B)).take B)).flatten = l := by
  intro n
  induction n with
  | zero =>
    intro l h
    simp only [Nat.zero_mul, Nat.le_zero, List.length_eq_zero] at h
    simp [h]
  | succ n ih =>
    intro l h
    have hlen : (l.drop B).length ≤ n * B := by
      have hsm : (n + 1) * B = n * B + B := by ring
      simp only [List.length_drop]
      omega
    rw [List.range_succ_eq_map, List.map_cons, List.flatten_cons, List.map_map]
    have hfun : ((fun b => (l.drop (b * B)).take B) ∘ Nat.succ)
        = (fun b => ((l.drop B).drop (b * B)).take B) := by
      funext b
      simp only [Function.comp]
      rw [List.drop_drop]
      congr 2
      rw [Nat.succ_mul]
      ring
    rw [hfun, ih (l.drop B) hlen]
    simp

/-- C1: a `data_flow` over equal-length sources with batch size `B > 0`,
one worker, no shuffle and `loop_forever` off yields, per epoch, exactly
`ceil(L/B)` batches; the chunks cover the index order `0, …, L-1` in
enqueue order; every batch holds `B` elements per source except the
last, which holds `L mod B` (or `B` when `B` divides `L`). -/
theorem c1_epoch_batches {α : Type} [Inhabited α] (dat : List (List α)) (L B : Nat)
    (hB : 0 < B) (hne : dat ≠ []) (hL : ∀ d ∈ dat, d.length = L) :
    (epochBatches dat B).length = (L + B - 1) / B
    ∧ ((List.range (numBatches L B)).map (batchIdx L B)).flatten = List.range L
    ∧ (∀ b, b + 1 < numBatches L B →
        ∀ l ∈ (epochBatches dat B).getD b [], l.length = B)
    ∧ (0 < L → ∀ l ∈ (epochBatches dat B).getD (numBatches L B - 1) [],
        l.length = (if L % B = 0 then B else L % B)) := by
  have hhead : (dat.headD []).length = L := by
    rcases dat with _ | ⟨d, ds⟩
    · exact absurd rfl hne
    · exact hL d (by simp)
  have hgetD : ∀ b, b < numBatches L B →
      (epochBatches dat B).getD b []
        = dat.map (fun d => (batchIdx L B b).map (fun i => d.getD i default)) := by
    intro b hb
    simp only [epochBatches, hhead]
    rw [List.getD_eq_getElem?_getD, List.getElem?_map, List.getElem?_range hb]
    rfl
  refine ⟨?_, ?_, ?_, ?_⟩
  · rw [epochBatches, List.length_map, List.length_range, hhead, numBatches_ceil L B hB]
  · have hle : (List.range L).length ≤ numBatches L B * B := by
      simp [le_numBatches_mul L B hB]
    have h := chunks_flatten B (numBatches L B) (List.range L) hle
    simpa [batchIdx] using h
  · intro b hb l hl
    rw [hgetD b (by omega)] at hl
    simp only [List.mem_map] at hl
    obtain ⟨d, _, rfl⟩ := hl
    simp only [List.length_map, batchIdx_length]
    exact chunk_len_full L B b hB hb
  · intro hLpos l hl
    have hnb : 0 < numBatches L B := by
      have := le_numBatches_mul L B hB
      rcases Nat.eq_zero_or_pos (numBatches L B) with h0 | h1
      · rw [h0] at this
        omega
      · exact h1
    rw [hgetD (numBatches L B - 1) (by omega)] at hl
    simp only [List.mem_map] at hl
    obtain ⟨d, _, rfl⟩ := hl
    simp only [List.length_map, batchIdx_length]
    exact chunk_len_last L B hB hLpos

/-- C1 witness: one source of length 5, batch size 2: three batches of
sizes 2, 2, 1, in enqueue order. -/
theorem c1_epoch_batches_witness :
    (epochBatches ([[10, 11, 12, 13, 14]] : List (List Nat)) 2).length = (5 + 2 - 1) / 2
    ∧ ((List.range (numBatches 5 2)).map (batchIdx 5 2)).flatten = List.range 5
    ∧ (∀ b, b + 1 < numBatches 5 2 →
        ∀ l ∈ (epochBatches ([[10, 11, 12, 13, 14]] : List (List Nat)) 2).getD b [],
          l.length = 2)
    ∧ (0 < 5 → ∀ l ∈ (epochBatches ([[10, 11, 12, 13, 14]] : List (List Nat)) 2).getD
          (numBatches 5 2 - 1) [],
        l.length = (if 5 % 2 = 0 then 2 else 5 % 2)) := by
  refine c1_epoch_batches [[10, 11, 12, 13, 14]] 5 2 (by omega) (by simp) ?_
  intro d hd
  simp only [List.mem_singleton] at hd
  subst hd
  rfl

/-! Embedding of `buffered_array_writer` and the `bcolz_array_writer`
constructor (`src/io.py`). -/

/-- The exceptions of the writer code: `ValueError` (wrong shape, or a
numpy broadcast failure on slice assignment), `TypeError` (wrong dtype),
`EOFError` (write at declared capacity), the `NameError` family (which
includes Python's unbound-local error), and a numpy `IndexError` for a
buffer write out of bounds. -/
inductive WErr : Type where
  | valueErr
  | typeErr
  | eofErr
  | unboundLocal
  | nameErr
  | idxErr
  deriving DecidableEq

/-- A numpy array handed to `buffered_write`: shape, dtype code, and its
rows - a single-element array (shape equal to the element shape) carries
its one value, a batch of shape `(n,)+S` carries its `n` rows. -/
structure Arr (α : Type) : Type where
  shape : List Nat
  dtype : Nat
  rows : List α
  deriving DecidableEq

/-- The state of a `buffered_array_writer`: the backing storage array,
the declared element shape, dtype and batch size, the optional declared
total length, and the buffer with its two pointers. -/
structure BWriter (α : Type) : Type where
  storage : List α
  elemShape : List Nat
  dtype : Nat
  batchSize : Nat
  length? : Option Nat
  buffer : List α
  bufPtr : Nat
  storPtr : Nat
  deriving DecidableEq

/-- `buffered_array_writer.__init__`: fresh pointers and an
`np.zeros((batch_size,)+shape)` buffer. -/
def mkWriter {α : Type} [Inhabited α] (storage : List α) (elemShape : List Nat)
    (dtype batchSize : Nat) (length? : Option Nat) : BWriter α :=
  ⟨storage, elemShape, dtype, batchSize, length?,
   List.replicate batchSize default, 0, 0⟩

/-- Numpy basic slice assignment `t[start:start+len(src)] = src`: the
slice is clipped to the array; the assignment succeeds when the source
length equals the clipped slice length, or is 1 (numpy broadcasts a
size-one source); otherwise it raises (`none`). -/
def sliceAssign {α : Type} (t : List α) (start : Nat) (src : List α) : Option (List α) :=
  let st := min start t.length
  let sp := min (start + src.length) t.length
  let n := sp - st
  if src.length = n then some (t.take st ++ src ++ t.drop (st + n))
  else
    match src with
    | [v] => some (t.take st ++ List.replicate n v ++ t.drop (st + n))
    | _ => none

/-- `buffered_array_writer.flush_buffer`: when `buffer_ptr > 0`, write
`buffer[:buffer_ptr]` into `storage_array[storage_array_ptr:end]`,
advance the storage pointer and reset the buffer pointer. -/
def flush_buffer {α : Type} (s : BWriter α) : Except WErr (BWriter α) :=
  if s.bufPtr > 0 then
    match sliceAssign s.storage s.storPtr (s.buffer.take s.bufPtr) with
    | some st2 =>
      Except.ok { s with storage := st2, storPtr := s.storPtr + s.bufPtr, bufPtr := 0 }
    | none => Except.error .valueErr
  else Except.ok s

/-- `data[1:].shape`: one row fewer along the first axis. -/
def dropFirstShape : List Nat → List Nat
  | [] => []
  | n :: rest => (n - 1) :: rest

/-- The buffering loop of `buffered_write`: place each element at
`buffer[buffer_ptr]` (out of range raises), advance, and flush when the
buffer fills. -/
def writeElems {α : Type} : List α → BWriter α → Except WErr (BWriter α)
  | [], s => Except.ok s
  | d :: ds, s =>
    if s.bufPtr < s.batchSize then
      let s1 : BWriter α :=
        { s with buffer := s.buffer.set s.bufPtr d, bufPtr := s.bufPtr + 1 }
      if s1.bufPtr = s1.batchSize then
        match flush_buffer s1 with
        | Except.error e => Except.error e
        | Except.ok s2 => writeElems ds s2
      else writeElems ds s1
    else Except.error .idxErr

/-- `buffered_array_writer.buffered_write`: the shape gate, the
`data_len` computation - whose second test compares `data[1:].shape`
(not `data.shape[1:]`) against the element shape, so it never assigns
`data_len` for a multi-element array - the end-of-stream check
(`length == storage_array_ptr` only), the dtype check, then (reached
only by single-element data) the buffering loop and the at-capacity
flush. -/
def buffered_write {α : Type} (s : BWriter α) (dat : Arr α) : Except WErr (BWriter α) :=
  if dat.shape ≠ s.elemShape ∧ dat.shape.drop 1 ≠ s.elemShape then
    Except.error .valueErr
  else
    let dataLen? : Option Nat :=
      if dat.shape = s.elemShape then some 1
      else if dropFirstShape dat.shape = s.elemShape then some (dat.shape.headD 0)
      else none
    if s.length? = some s.storPtr then Except.error .eofErr
    else if dat.dtype ≠ s.dtype then Except.error .typeErr
    else
      match dataLen? with
      | none => Except.error .unboundLocal
      | some _ =>
        match writeElems dat.rows s with
        | Except.error e => Except.error e
        | Except.ok s1 =>
          match s1.length? with
          | some L =>
            if s1.storPtr + s1.bufPtr = L then flush_buffer s1 else Except.ok s1
          | none => Except.ok s1

/-- The local names in scope in `bcolz_array_writer.__init__` when the
line `self.save_path = save_pathsavepath` executes: exactly its
parameters. -/
def bcolzInitScope : List String :=
  ["self", "data_element_shape", "dtype", "batch_size", "save_path",
   "length", "append", "kwargs"]

/-- The first name the constructor body reads after `super().__init__`:
the misspelled `save_pathsavepath`. -/
def bcolzFirstRead : String := "save_pathsavepath"

/-- `bcolz_array_writer.__init__` with Python name resolution explicit:
`super().__init__(None, …)` builds the base state, then the body reads
`save_pathsavepath`; if that name were in scope the constructor would go
on to create the backing array through `create` (standing for
`bcolz.zeros`), otherwise it raises a `NameError` first. -/
def bcolz_array_writer_init {α : Type} [Inhabited α]
    (elemShape : List Nat) (dtype batchSize : Nat) (savePath : String)
    (length? : Option Nat) (create : String → List α) : Except WErr (BWriter α) :=
  let base := mkWriter ([] : List α) elemShape dtype batchSize length?
  if bcolzFirstRead ∈ bcolzInitScope then
    Except.ok { base with storage := create savePath }
  else
    Except.error .nameErr

/-! The writer claims. -/

/-- C10: a completed `flush_buffer` call leaves `buffer_ptr = 0`, and a
second consecutive call changes nothing: it returns the same state -
same buffer pointer, same storage pointer, same storage contents. -/
theorem c10_flush_idempotent {α : Type} (s s2 : BWriter α)
    (h : flush_buffer s = Except.ok s2) :
    s2.bufPtr = 0 ∧ flush_buffer s2 = Except.ok s2 := by
  by_cases hp : s.bufPtr > 0
  · rw [flush_buffer, if_pos hp] at h
    cases ha : sliceAssign s.storage s.storPtr (s.buffer.take s.bufPtr) with
    | none =>
      rw [ha] at h
      cases h
    | some st2 =>
      rw [ha] at h
      cases h
      refine ⟨rfl, ?_⟩
      simp [flush_buffer]
  · rw [flush_buffer, if_neg hp] at h
    cases h
    refine ⟨by omega, ?_⟩
    rw [flush_buffer, if_neg hp]

/-- A concrete writer with one buffered element. -/
def wsample : BWriter Nat := ⟨[0, 0, 0], [], 0, 2, none, [5, 6], 1, 0⟩

/-- The state after flushing `wsample`. -/
def wsample2 : BWriter Nat := ⟨[5, 0, 0], [], 0, 2, none, [5, 6], 0, 1⟩

/-- C10 witness: flushing `wsample` completes, leaves `buffer_ptr = 0`,
and a second flush is the identity. -/
theorem c10_flush_idempotent_witness :
    flush_buffer wsample = Except.ok wsample2
    ∧ wsample2.bufPtr = 0
    ∧ flush_buffer wsample2 = Except.ok wsample2 := by
  have h0 : flush_buffer wsample = Except.ok wsample2 := by decide
  have h := c10_flush_idempotent wsample wsample2 h0
  exact ⟨h0, h.1, h.2⟩

/-- C8: constructing a `bcolz_array_writer` always raises a `NameError`,
whatever the arguments and whatever array `bcolz.zeros` would have
produced: the name the body reads first is not among the constructor's
local names, so no bcolz-backed writer is ever created. -/
theorem c8_bcolz_name_error {α : Type} [Inhabited α]
    (elemShape : List Nat) (dtype batchSize : Nat) (savePath : String)
    (length? : Option Nat) (create : String → List α) :
    bcolz_array_writer_init elemShape dtype batchSize savePath length? create
      = Except.error .nameErr
    ∧ bcolzFirstRead ∉ bcolzInitScope := by
  refine ⟨?_, by decide⟩
  simp only [bcolz_array_writer_init]
  rw [if_neg (by decide)]

/-- A fresh writer with declared capacity 1 and batch size 3. -/
def w7 : BWriter Nat := ⟨[0], [], 0, 3, some 1, [0, 0, 0], 0, 0⟩

/-- A writer whose storage pointer already equals its declared length. -/
def wEOF : BWriter Nat := ⟨[9], [], 0, 2, some 1, [0, 0], 0, 1⟩

/-- C7 counterexample: a single `buffered_write` of two elements to a
fresh writer of declared capacity 1 would place elements beyond the
capacity, yet it does not raise `EOFError`: it dies on the unbound local
`data_len` (a `NameError`), because the capacity check only fires when
the storage pointer already equals the declared length. -/
theorem c7_eof_counterexample :
    buffered_write w7 ⟨[2], 0, [7, 8]⟩ = Except.error .unboundLocal
    ∧ WErr.unboundLocal ≠ WErr.eofErr := by
  exact ⟨by decide, by decide⟩

/-- C7 (amended): after the shape gate, `buffered_write` raises
`EOFError` exactly when a declared length exists and the storage pointer
already equals it on entry; a call that merely would overrun the
capacity is not stopped by that check - in fact every multi-element
write (shape `(n,)+S`) fails before buffering with an unbound-local
`NameError`, since `data[1:].shape` never equals the element shape. -/
theorem c7_eof_semantics {α : Type} (s : BWriter α) (dat : Arr α)
    (hshape : dat.shape = s.elemShape ∨ dat.shape.drop 1 = s.elemShape) :
    (s.length? = some s.storPtr → buffered_write s dat = Except.error .eofErr)
    ∧ (∀ L, s.length? = some L → s.storPtr ≠ L → dat.dtype = s.dtype →
        dat.shape ≠ s.elemShape →
        buffered_write s dat = Except.error .unboundLocal) := by
  have hgate : ¬ (dat.shape ≠ s.elemShape ∧ dat.shape.drop 1 ≠ s.elemShape) := by
    tauto
  constructor
  · intro hfull
    simp only [buffered_write]
    rw [if_neg hgate, if_pos hfull]
  · intro L hL hne hdt hns
    have hdrop : dat.shape.drop 1 = s.elemShape := by
      tauto
    obtain ⟨n, rest, hsh⟩ : ∃ n rest, dat.shape = n :: rest := by
      cases hq : dat.shape with
      | nil =>
        exfalso
        apply hns
        rw [hq] at hdrop
        simp at hdrop
        rw [hq, ← hdrop]
      | cons n rest => exact ⟨n, rest, rfl⟩
    have hrest : rest = s.elemShape := by
      rw [hsh] at hdrop
      simpa using hdrop
    have hnone : dropFirstShape dat.shape ≠ s.elemShape := by
      rw [hsh, hrest]
      intro hc
      have hlen := congrArg List.length hc
      simp [dropFirstShape] at hlen
    have hEOF : ¬ s.length? = some s.storPtr := by
      rw [hL]
      intro hc
      exact hne (Option.some.inj hc).symm
    have hdty : ¬ dat.dtype ≠ s.dtype := by
      rw [hdt]
      exact fun hc => hc rfl
    simp only [buffered_write]
    rw [if_neg hgate, if_neg hEOF, if_neg hdty, if_neg hns, if_neg hnone]

/-- C7 witness: the amended statement evaluated at a full writer (EOF on
a single-element write) and at the fresh capacity-1 writer (unbound
local on a two-element write). -/
theorem c7_eof_semantics_witness :
    buffered_write wEOF ⟨[], 0, [7]⟩ = Except.error .eofErr
    ∧ buffered_write w7 ⟨[2], 0, [7, 8]⟩ = Except.error .unboundLocal := by
  have h1 := c7_eof_semantics wEOF ⟨[], 0, [7]⟩ (Or.inl rfl)
  have h2 := c7_eof_semantics w7 ⟨[2], 0, [7, 8]⟩ (Or.inr rfl)
  exact ⟨h1.1 rfl, h2.2 1 rfl (by decide) rfl (by decide)⟩

/-! Interleaving model of one `data_flow.flow()` invocation with
`loop_forever = False`, fault-free (no stage raises).  The loader thread
runs `_preload_subroutine`, `W` worker processes run
`_process_subroutine`, the consumer runs the generator loop of `flow()`
(and then its cleanup); they share two joinable queues and the two
monotone events `stop` and `stop_on_empty` (the drain flag).  Each
constructor of `Step` is one atomic action of one stage. -/

namespace Flow

/-- An item travelling through a queue: a real batch, or the `None`
sentinel the loader pushes during drain. -/
inductive Msg : Type where
  | real
  | sentinel
  deriving DecidableEq

/-- A `multiprocessing.JoinableQueue`: FIFO contents plus the count of
unfinished tasks (puts not yet matched by `task_done`); `join()` blocks
until that count is zero. -/
structure Q : Type where
  items : List Msg
  unfinished : Nat
  deriving DecidableEq

/-- `put`: append an item and count one more unfinished task. -/
def push (q : Q) (m : Msg) : Q := ⟨q.items ++ [m], q.unfinished + 1⟩

/-- `task_done`: one fewer unfinished task. -/
def ack (q : Q) : Q := ⟨q.items, q.unfinished - 1⟩

/-- Whether a `put` may proceed: `JoinableQueue(W)` holds at most `W`
items, except that capacity 0 means unbounded. -/
def capOK (W : Nat) (q : Q) : Prop := W = 0 ∨ q.items.length < W

/-- Loader program counter (`_preload_subroutine`, `loop_forever` off):
the while-check, the epoch for-loop, then `stop_on_empty.set()`,
`load_queue.join()`, `proc_queue.join()`, `proc_queue.put(None)`,
`proc_queue.join()`, `stop.set()`, and exit. -/
inductive LPC : Type where
  | start
  | loop (b : Nat)
  | drainSet
  | joinLoad
  | joinProc1
  | putNone
  | joinProc2
  | setStop
  | halt
  deriving DecidableEq

/-- Worker program counter (`_process_subroutine`): the while-check, the
`get` call (whose blocking mode is read from the drain flag at call
time), the blocking and non-blocking gets, `proc_queue.put`,
`load_queue.task_done()`, and the `queue.Empty` branch (join both
queues, then `stop.set()`). -/
inductive WPC : Type where
  | top
  | getCall
  | getBlk
  | getNB
  | putRes
  | ackLoad
  | eJoinLoad
  | eJoinProc
  | setStopW
  | halt
  deriving DecidableEq

/-- Consumer program counter (the `flow()` generator loop): the
while-check, `proc_queue.get()` (yielding unless the item is the
sentinel), `proc_queue.task_done()`, and the cleanup after the loop. -/
inductive CPC : Type where
  | top
  | pull
  | ackProc
  | halt
  deriving DecidableEq

/-- A global state of one streaming invocation. `sentCount` counts the
sentinels ever pushed; `yielded` records the batches surfaced to the
caller. -/
structure St : Type where
  loadQ : Q
  procQ : Q
  stopF : Bool
  drainF : Bool
  ldr : LPC
  ws : List WPC
  cons : CPC
  sentCount : Nat
  yielded : List Msg
  deriving DecidableEq

/-- The state `flow()` creates: empty queues, clear flags, every stage
at its while-check. -/
def initSt (W : Nat) : St :=
  ⟨⟨[], 0⟩, ⟨[], 0⟩, false, false, .start, List.replicate W .top, .top, 0, []⟩

/-- One atomic action of the loader, of one worker (the decomposition
`l1 ++ w :: l2` picks it), or of the consumer. -/
inductive Step (numB W : Nat) : St → St → Prop where
  | lStartHalt (s : St) (h : s.ldr = .start) (hstop : s.stopF = true) :
      Step numB W s { s with ldr := .halt }
  | lStartGo (s : St) (h : s.ldr = .start) (hstop : s.stopF = false) :
      Step numB W s { s with ldr := .loop 0 }
  | lLoopSkip (s : St) (b : Nat) (h : s.ldr = .loop b) (hb : b < numB)
      (hstop : s.stopF = true) :
      Step numB W s { s with ldr := .loop (b + 1) }
  | lLoopPut (s : St) (b : Nat) (h : s.ldr = .loop b) (hb : b < numB)
      (hstop : s.stopF = false) (hcap : capOK W s.loadQ) :
      Step numB W s { s with loadQ := push s.loadQ .real, ldr := .loop (b + 1) }
  | lLoopFin (s : St) (b : Nat) (h : s.ldr = .loop b) (hb : numB ≤ b) :
      Step numB W s { s with ldr := .drainSet }
  | lDrain (s : St) (h : s.ldr = .drainSet) :
      Step numB W s { s with drainF := true, ldr := .joinLoad }
  | lJoinLoad (s : St) (h : s.ldr = .joinLoad) (hq : s.loadQ.unfinished = 0) :
      Step numB W s { s with ldr := .joinProc1 }
  | lJoinProc1 (s : St) (h : s.ldr = .joinProc1) (hq : s.procQ.unfinished = 0) :
      Step numB W s { s with ldr := .putNone }
  | lPutNone (s : St) (h : s.ldr = .putNone) (hcap : capOK W s.procQ) :
      Step numB W s { s with procQ := push s.procQ .sentinel,
                             sentCount := s.sentCount + 1, ldr := .joinProc2 }
  | lJoinProc2 (s : St) (h : s.ldr = .joinProc2) (hq : s.procQ.unfinished = 0) :
      Step numB W s { s with ldr := .setStop }
  | lSetStop (s : St) (h : s.ldr = .setStop) :
      Step numB W s { s with stopF := true, ldr := .halt }
  | wTopHalt (s : St) (l1 l2 : List WPC) (h : s.ws = l1 ++ .top :: l2)
      (hstop : s.stopF = true) :
      Step numB W s { s with ws := l1 ++ .halt :: l2 }
  | wTopGo (s : St) (l1 l2 : List WPC) (h : s.ws = l1 ++ .top :: l2)
      (hstop : s.stopF = false) :
      Step numB W s { s with ws := l1 ++ .getCall :: l2 }
  | wCallNB (s : St) (l1 l2 : List WPC) (h : s.ws = l1 ++ .getCall :: l2)
      (hdr : s.drainF = true) :
      Step numB W s { s with ws := l1 ++ .getNB :: l2 }
  | wCallBlk (s : St) (l1 l2 : List WPC) (h : s.ws = l1 ++ .getCall :: l2)
      (hdr : s.drainF = false) :
      Step numB W s { s with ws := l1 ++ .getBlk :: l2 }
  | wBlkPop (s : St) (l1 l2 : List WPC) (m : Msg) (rest : List Msg)
      (h : s.ws = l1 ++ .getBlk :: l2) (hq : s.loadQ.items = m :: rest) :
      Step numB W s { s with loadQ := ⟨rest, s.loadQ.unfinished⟩,
                             ws := l1 ++ .putRes :: l2 }
  | wNBPop (s : St) (l1 l2 : List WPC) (m : Msg) (rest : List Msg)
      (h : s.ws = l1 ++ .getNB :: l2) (hq : s.loadQ.items = m :: rest) :
      Step numB W s { s with loadQ := ⟨rest, s.loadQ.unfinished⟩,
                             ws := l1 ++ .putRes :: l2 }
  | wNBEmpty (s : St) (l1 l2 : List WPC) (h : s.ws = l1 ++ .getNB :: l2)
      (hq : s.loadQ.items = []) :
      Step numB W s { s with ws := l1 ++ .eJoinLoad :: l2 }
  | wPut (s : St) (l1 l2 : List WPC) (h : s.ws = l1 ++ .putRes :: l2)
      (hcap : capOK W s.procQ) :
      Step numB W s { s with procQ := push s.procQ .real,
                             ws := l1 ++ .ackLoad :: l2 }
  | wAck (s : St) (l1 l2 : List WPC) (h : s.ws = l1 ++ .ackLoad :: l2) :
      Step numB W s { s with loadQ := ack s.loadQ, ws := l1 ++ .top :: l2 }
  | wEJL (s : St) (l1 l2 : List WPC) (h : s.ws = l1 ++ .eJoinLoad :: l2)
      (hq : s.loadQ.unfinished = 0) :
      Step numB W s { s with ws := l1 ++ .eJoinProc :: l2 }
  | wEJP (s : St) (l1 l2 : List WPC) (h : s.ws = l1 ++ .eJoinProc :: l2)
      (hq : s.procQ.unfinished = 0) :
      Step numB W s { s with ws := l1 ++ .setStopW :: l2 }
  | wSetStop (s : St) (l1 l2 : List WPC) (h : s.ws = l1 ++ .setStopW :: l2) :
      Step numB W s { s with stopF := true, ws := l1 ++ .top :: l2 }
  | cTopHalt (s : St) (h : s.cons = .top) (hstop : s.stopF = true) :
      Step numB W s { s with cons := .halt }
  | cTopGo (s : St) (h : s.cons = .top) (hstop : s.stopF = false) :
      Step numB W s { s with cons := .pull }
  | cPull (s : St) (m : Msg) (rest : List Msg) (h : s.cons = .pull)
      (hq : s.procQ.items = m :: rest) :
      Step numB W s { s with procQ := ⟨rest, s.procQ.unfinished⟩,
                             yielded := s.yielded ++ (if m = .sentinel then [] else [m]),
                             cons := .ackProc }
  | cAck (s : St) (h : s.cons = .ackProc) :
      Step numB W s { s with procQ := ack s.procQ, cons := .top }
  | cCleanL (s : St) (m : Msg) (rest : List Msg) (h : s.cons = .halt)
      (hq : s.loadQ.items = m :: rest) :
      Step numB W s { s with loadQ := ⟨rest, s.loadQ.unfinished⟩ }
  | cCleanP (s : St) (m : Msg) (rest : List Msg) (h : s.cons = .halt)
      (hq : s.procQ.items = m :: rest) :
      Step numB W s { s with procQ := ⟨rest, s.procQ.unfinished⟩ }

/-- The reachable states of one invocation. -/
inductive Reach (numB W : Nat) : St → Prop where
  | init : Reach numB W (initSt W)
  | next {s t : St} : Reach numB W s → Step numB W s t → Reach numB W t

/-- The loader's position in its program order. -/
def ldStage : LPC → Nat
  | .start => 0
  | .loop _ => 1
  | .drainSet => 2
  | .joinLoad => 3
  | .joinProc1 => 4
  | .putNone => 5
  | .joinProc2 => 6
  | .setStop => 7
  | .halt => 8

/-- A worker holding an unacknowledged load-queue item (it has popped,
and has not yet called `task_done`). -/
def isHold : WPC → Bool
  | .putRes | .ackLoad => true
  | _ => false

/-- Worker positions reachable only after observing the drain flag. -/
def needsDrain : WPC → Bool
  | .getNB | .eJoinLoad | .eJoinProc | .setStopW => true
  | _ => false

/-- The inductive invariant of the protocol. -/
def INV (s : St) : Prop :=
  (s.stopF = true → s.drainF = true)
  ∧ (s.drainF = true ↔ 3 ≤ ldStage s.ldr)
  ∧ (s.sentCount = if 6 ≤ ldStage s.ldr then 1 else 0)
  ∧ (s.loadQ.items.length + s.ws.countP isHold ≤ s.loadQ.unfinished)
  ∧ (s.procQ.items.length + (if s.cons = .ackProc then 1 else 0) ≤ s.procQ.unfinished)
  ∧ (ldStage s.ldr = 0 → s.stopF = false)
  ∧ (4 ≤ ldStage s.ldr → s.loadQ.unfinished = 0)
  ∧ (ldStage s.ldr = 5 → s.procQ.unfinished = 0 ∧ s.procQ.items = [])
  ∧ (∀ w ∈ s.ws, needsDrain w = true → s.drainF = true)
  ∧ Msg.sentinel ∉ s.yielded

theorem countP_decomp (l1 l2 : List WPC) (w : WPC) (p : WPC → Bool) :
    (l1 ++ w :: l2).countP p
      = l1.countP p + l2.countP p + (if p w then 1 else 0) := by
  rw [List.countP_append, List.countP_cons]
  omega

theorem mem_decomp {w a : WPC} {l1 l2 : List WPC} (h : w ∈ l1 ++ a :: l2) :
    w ∈ l1 ∨ w = a ∨ w ∈ l2 := by
  simp only [List.mem_append, List.mem_cons] at h
  tauto

theorem inv_lStartHalt (s : St) (h : s.ldr = .start) (hstop : s.stopF = true)
    (hinv : INV s) : INV { s with ldr := .halt } := by
  obtain ⟨i1, i2, i3, i4, i5, i6, i7, i8, i9, i10⟩ := hinv
  have hx : s.stopF = false := i6 (by rw [h]; rfl)
  rw [hstop] at hx
  cases hx

theorem inv_lStartGo (s : St) (h : s.ldr = .start) (hstop : s.stopF = false)
    (hinv : INV s) : INV { s with ldr := .loop 0 } := by
  obtain ⟨i1, i2, i3, i4, i5, i6, i7, i8, i9, i10⟩ := hinv
  rw [h] at i2 i3
  refine ⟨i1, ?_, ?_, i4, i5, ?_, ?_, ?_, i9, i10⟩
  · simpa [ldStage] using i2
  · simpa [ldStage] using i3
  · intro hc; simp [ldStage] at hc
  · intro hc; simp [ldStage] at hc
  · intro hc; simp [ldStage] at hc

theorem inv_lLoopSkip (s : St) (b : Nat) (h : s.ldr = .loop b)
    (hstop : s.stopF = true) (hinv : INV s) : INV { s with ldr := .loop (b + 1) } := by
  obtain ⟨i1, i2, i3, i4, i5, i6, i7, i8, i9, i10⟩ := hinv
  exfalso
  have hdr := i1 hstop
  rw [h] at i2
  have := i2.mp hdr
  simp [ldStage] at this

theorem inv_lLoopPut (s : St) (b : Nat) (h : s.ldr = .loop b)
    (hinv : INV s) :
    INV { s with loadQ := push s.loadQ .real, ldr := .loop (b + 1) } := by
  obtain ⟨i1, i2, i3, i4, i5, i6, i7, i8, i9, i10⟩ := hinv
  rw [h] at i2 i3
  refine ⟨i1, ?_, ?_, ?_, i5, ?_, ?_, ?_, i9, i10⟩
  · simpa [ldStage] using i2
  · simpa [ldStage] using i3
  · simp only [push, List.length_append, List.length_cons, List.length_nil]
    omega
  · intro hc; simp [ldStage] at hc
  · intro hc; simp [ldStage] at hc
  · intro hc; simp [ldStage] at hc

theorem inv_lLoopFin (s : St) (b : Nat) (h : s.ldr = .loop b)
    (hinv : INV s) : INV { s with ldr := .drainSet } := by
  obtain ⟨i1, i2, i3, i4, i5, i6, i7, i8, i9, i10⟩ := hinv
  rw [h] at i2 i3
  refine ⟨i1, ?_, ?_, i4, i5, ?_, ?_, ?_, i9, i10⟩
  · simpa [ldStage] using i2
  · simpa [ldStage] using i3
  · intro hc; simp [ldStage] at hc
  · intro hc; simp [ldStage] at hc
  · intro hc; simp [ldStage] at hc

theorem inv_lDrain (s : St) (h : s.ldr = .drainSet)
    (hinv : INV s) : INV { s with drainF := true, ldr := .joinLoad } := by
  obtain ⟨i1, i2, i3, i4, i5, i6, i7, i8, i9, i10⟩ := hinv
  rw [h] at i3
  refine ⟨fun _ => rfl, by simp [ldStage], ?_, i4, i5, ?_, ?_, ?_, ?_, i10⟩
  · simpa [ldStage] using i3
  · intro hc; simp [ldStage] at hc
  · intro hc; simp [ldStage] at hc
  · intro hc; simp [ldStage] at hc
  · intro w hw hn; rfl

theorem inv_lJoinLoad (s : St) (h : s.ldr = .joinLoad)
    (hq : s.loadQ.unfinished = 0) (hinv : INV s) :
    INV { s with ldr := .joinProc1 } := by
  obtain ⟨i1, i2, i3, i4, i5, i6, i7, i8, i9, i10⟩ := hinv
  rw [h] at i2 i3
  have hdr : s.drainF = true := by simpa [ldStage] using i2
  refine ⟨i1, by simp [ldStage, hdr], ?_, i4, i5, ?_, fun _ => hq, ?_, i9, i10⟩
  · simpa [ldStage] using i3
  · intro hc; simp [ldStage] at hc
  · intro hc; simp [ldStage] at hc

theorem inv_lJoinProc1 (s : St) (h : s.ldr = .joinProc1)
    (hq : s.procQ.unfinished = 0) (hinv : INV s) :
    INV { s with ldr := .putNone } := by
  obtain ⟨i1, i2, i3, i4, i5, i6, i7, i8, i9, i10⟩ := hinv
  rw [h] at i2 i3 i7
  have hdr : s.drainF = true := by simpa [ldStage] using i2
  have hit : s.procQ.items = [] := by
    rw [hq] at i5
    have hlen : s.procQ.items.length = 0 := by omega
    exact List.eq_nil_of_length_eq_zero hlen
  refine ⟨i1, by simp [ldStage, hdr], ?_, i4, i5, ?_,
    fun _ => i7 (by simp [ldStage]), fun _ => ⟨hq, hit⟩, i9, i10⟩
  · simpa [ldStage] using i3
  · intro hc; simp [ldStage] at hc

theorem inv_lPutNone (s : St) (h : s.ldr = .putNone) (hinv : INV s) :
    INV { s with procQ := push s.procQ .sentinel,
                 sentCount := s.sentCount + 1, ldr := .joinProc2 } := by
  obtain ⟨i1, i2, i3, i4, i5, i6, i7, i8, i9, i10⟩ := hinv
  rw [h] at i2 i3 i7
  have hdr : s.drainF = true := by simpa [ldStage] using i2
  have i3z : s.sentCount = 0 := by simpa [ldStage] using i3
  refine ⟨i1, by simp [ldStage, hdr], by simp [ldStage, i3z], i4, ?_, ?_,
    fun _ => i7 (by simp [ldStage]), ?_, i9, i10⟩
  · simp only [push, List.length_append, List.length_cons, List.length_nil]
    omega
  · intro hc; simp [ldStage] at hc
  · intro hc; simp [ldStage] at hc

theorem inv_lJoinProc2 (s : St) (h : s.ldr = .joinProc2) (hinv : INV s) :
    INV { s with ldr := .setStop } := by
  obtain ⟨i1, i2, i3, i4, i5, i6, i7, i8, i9, i10⟩ := hinv
  rw [h] at i2 i3 i7
  have hdr : s.drainF = true := by simpa [ldStage] using i2
  refine ⟨i1, by simp [ldStage, hdr], ?_, i4, i5, ?_,
    fun _ => i7 (by simp [ldStage]), ?_, i9, i10⟩
  · simpa [ldStage] using i3
  · intro hc; simp [ldStage] at hc
  · intro hc; simp [ldStage] at hc

theorem inv_lSetStop (s : St) (h : s.ldr = .setStop) (hinv : INV s) :
    INV { s with stopF := true, ldr := .halt } := by
  obtain ⟨i1, i2, i3, i4, i5, i6, i7, i8, i9, i10⟩ := hinv
  rw [h] at i2 i3 i7
  have hdr : s.drainF = true := by simpa [ldStage] using i2
  refine ⟨fun _ => hdr, by simp [ldStage, hdr], ?_, i4, i5, ?_,
    fun _ => i7 (by simp [ldStage]), ?_, i9, i10⟩
  · simpa [ldStage] using i3
  · intro hc; simp [ldStage] at hc
  · intro hc; simp [ldStage] at hc

theorem inv_worker_frame (s : St) (l1 l2 : List WPC) (a b : WPC)
    (h : s.ws = l1 ++ a :: l2)
    (hhold : isHold b = isHold a)
    (hneed : needsDrain b = true → needsDrain a = true ∨ s.drainF = true)
    (hinv : INV s) : INV { s with ws := l1 ++ b :: l2 } := by
  obtain ⟨i1, i2, i3, i4, i5, i6, i7, i8, i9, i10⟩ := hinv
  have hamem : a ∈ s.ws := by rw [h]; simp
  refine ⟨i1, i2, i3, ?_, i5, i6, i7, i8, ?_, i10⟩
  · rw [h, countP_decomp] at i4
    rw [countP_decomp, hhold]
    exact i4
  · intro w hw hn
    rcases mem_decomp hw with h1 | h2 | h3
    · exact i9 w (by rw [h]; simp [h1]) hn
    · subst h2
      rcases hneed hn with hna | hdr
      · exact i9 a hamem hna
      · exact hdr
    · exact i9 w (by rw [h]; simp [h3]) hn

theorem inv_wPop (s : St) (l1 l2 : List WPC) (a : WPC) (m : Msg) (rest : List Msg)
    (h : s.ws = l1 ++ a :: l2) (hq : s.loadQ.items = m :: rest)
    (hhold : isHold a = false) (hinv : INV s) :
    INV { s with loadQ := ⟨rest, s.loadQ.unfinished⟩, ws := l1 ++ .putRes :: l2 } := by
  obtain ⟨i1, i2, i3, i4, i5, i6, i7, i8, i9, i10⟩ := hinv
  refine ⟨i1, i2, i3, ?_, i5, i6, i7, i8, ?_, i10⟩
  · rw [h, countP_decomp, hq] at i4
    have hv0 : (if isHold a = true then (1 : Nat) else 0) = 0 := by simp [hhold]
    have hv1 : (if isHold WPC.putRes = true then (1 : Nat) else 0) = 1 := rfl
    rw [hv0] at i4
    simp only [List.length_cons] at i4
    dsimp only
    rw [countP_decomp, hv1]
    omega
  · intro w hw hn
    rcases mem_decomp hw with h1 | h2 | h3
    · exact i9 w (by rw [h]; simp [h1]) hn
    · subst h2
      simp [needsDrain] at hn
    · exact i9 w (by rw [h]; simp [h3]) hn

theorem inv_wPut (s : St) (l1 l2 : List WPC)
    (h : s.ws = l1 ++ .putRes :: l2) (hinv : INV s) :
    INV { s with procQ := push s.procQ .real, ws := l1 ++ .ackLoad :: l2 } := by
  obtain ⟨i1, i2, i3, i4, i5, i6, i7, i8, i9, i10⟩ := hinv
  refine ⟨i1, i2, i3, ?_, ?_, i6, i7, ?_, ?_, i10⟩
  · rw [h, countP_decomp] at i4
    have hv1 : (if isHold WPC.putRes = true then (1 : Nat) else 0) = 1 := rfl
    have hv2 : (if isHold WPC.ackLoad = true then (1 : Nat) else 0) = 1 := rfl
    rw [hv1] at i4
    dsimp only
    rw [countP_decomp, hv2]
    omega
  · dsimp only
    simp only [push, List.length_append, List.length_cons, List.length_nil]
    omega
  · intro h5
    exfalso
    have h5x : ldStage s.ldr = 5 := h5
    have h0 := i7 (by omega)
    rw [h, countP_decomp] at i4
    have hv1 : (if isHold WPC.putRes = true then (1 : Nat) else 0) = 1 := rfl
    rw [hv1] at i4
    omega
  · intro w hw hn
    rcases mem_decomp hw with h1 | h2 | h3
    · exact i9 w (by rw [h]; simp [h1]) hn
    · subst h2
      simp [needsDrain] at hn
    · exact i9 w (by rw [h]; simp [h3]) hn

theorem inv_wAck (s : St) (l1 l2 : List WPC)
    (h : s.ws = l1 ++ .ackLoad :: l2) (hinv : INV s) :
    INV { s with loadQ := ack s.loadQ, ws := l1 ++ .top :: l2 } := by
  obtain ⟨i1, i2, i3, i4, i5, i6, i7, i8, i9, i10⟩ := hinv
  refine ⟨i1, i2, i3, ?_, i5, i6, ?_, i8, ?_, i10⟩
  · rw [h, countP_decomp] at i4
    have hv2 : (if isHold WPC.ackLoad = true then (1 : Nat) else 0) = 1 := rfl
    have hv0 : (if isHold WPC.top = true then (1 : Nat) else 0) = 0 := rfl
    rw [hv2] at i4
    dsimp only
    simp only [ack]
    rw [countP_decomp, hv0]
    omega
  · intro hst
    have hst2 : 4 ≤ ldStage s.ldr := hst
    have h0 := i7 hst2
    simp only [ack, h0]
  · intro w hw hn
    rcases mem_decomp hw with h1 | h2 | h3
    · exact i9 w (by rw [h]; simp [h1]) hn
    · subst h2
      simp [needsDrain] at hn
    · exact i9 w (by rw [h]; simp [h3]) hn

theorem inv_wSetStop (s : St) (l1 l2 : List WPC)
    (h : s.ws = l1 ++ .setStopW :: l2) (hinv : INV s) :
    INV { s with stopF := true, ws := l1 ++ .top :: l2 } := by
  obtain ⟨i1, i2, i3, i4, i5, i6, i7, i8, i9, i10⟩ := hinv
  have hdr : s.drainF = true :=
    i9 WPC.setStopW (by rw [h]; simp) (by simp [needsDrain])
  refine ⟨fun _ => hdr, i2, i3, ?_, i5, ?_, i7, i8, ?_, i10⟩
  · rw [h, countP_decomp] at i4
    have hv0 : (if isHold WPC.setStopW = true then (1 : Nat) else 0) = 0 := rfl
    have hv1 : (if isHold WPC.top = true then (1 : Nat) else 0) = 0 := rfl
    rw [hv0] at i4
    dsimp only
    rw [countP_decomp, hv1]
    omega
  · intro h0
    exfalso
    have h0x : ldStage s.ldr = 0 := h0
    have := i2.mp hdr
    omega
  · intro w hw hn
    rcases mem_decomp hw with h1 | h2 | h3
    · exact i9 w (by rw [h]; simp [h1]) hn
    · subst h2
      simp [needsDrain] at hn
    · exact i9 w (by rw [h]; simp [h3]) hn

theorem inv_cTop (s : St) (c2 : CPC) (h : s.cons = .top) (hc2 : c2 ≠ .ackProc)
    (hinv : INV s) : INV { s with cons := c2 } := by
  obtain ⟨i1, i2, i3, i4, i5, i6, i7, i8, i9, i10⟩ := hinv
  rw [h] at i5
  have g0 : (if (CPC.top : CPC) = CPC.ackProc then (1 : Nat) else 0) = 0 := rfl
  rw [g0] at i5
  refine ⟨i1, i2, i3, i4, ?_, i6, i7, i8, i9, i10⟩
  dsimp only
  rw [if_neg hc2]
  omega

theorem inv_cPull (s : St) (m : Msg) (rest : List Msg) (h : s.cons = .pull)
    (hq : s.procQ.items = m :: rest) (hinv : INV s) :
    INV { s with procQ := ⟨rest, s.procQ.unfinished⟩,
                 yielded := s.yielded ++ (if m = .sentinel then [] else [m]),
                 cons := .ackProc } := by
  obtain ⟨i1, i2, i3, i4, i5, i6, i7, i8, i9, i10⟩ := hinv
  rw [h, hq] at i5
  have g0 : (if (CPC.pull : CPC) = CPC.ackProc then (1 : Nat) else 0) = 0 := rfl
  have g1 : (if (CPC.ackProc : CPC) = CPC.ackProc then (1 : Nat) else 0) = 1 := rfl
  rw [g0] at i5
  refine ⟨i1, i2, i3, i4, ?_, i6, i7, ?_, i9, ?_⟩
  · simp only [List.length_cons] at i5
    dsimp only
    rw [g1]
    omega
  · intro h5
    exfalso
    have := (i8 h5).2
    rw [hq] at this
    cases this
  · by_cases hm : m = Msg.sentinel
    · simp [hm, i10]
    · simp only [if_neg hm, List.mem_append, List.mem_cons, List.not_mem_nil]
      intro hcon
      rcases hcon with hy | hs2
      · exact i10 hy
      · simp at hs2
        exact hm hs2.symm

theorem inv_cAck (s : St) (h : s.cons = .ackProc) (hinv : INV s) :
    INV { s with procQ := ack s.procQ, cons := .top } := by
  obtain ⟨i1, i2, i3, i4, i5, i6, i7, i8, i9, i10⟩ := hinv
  rw [h] at i5
  have g1 : (if (CPC.ackProc : CPC) = CPC.ackProc then (1 : Nat) else 0) = 1 := rfl
  have g0 : (if (CPC.top : CPC) = CPC.ackProc then (1 : Nat) else 0) = 0 := rfl
  rw [g1] at i5
  refine ⟨i1, i2, i3, i4, ?_, i6, i7, ?_, i9, i10⟩
  · dsimp only
    simp only [ack]
    rw [g0]
    omega
  · intro h5
    exfalso
    have := (i8 h5).1
    omega

theorem inv_cCleanL (s : St) (m : Msg) (rest : List Msg) (h : s.cons = .halt)
    (hq : s.loadQ.items = m :: rest) (hinv : INV s) :
    INV { s with loadQ := ⟨rest, s.loadQ.unfinished⟩ } := by
  obtain ⟨i1, i2, i3, i4, i5, i6, i7, i8, i9, i10⟩ := hinv
  rw [hq] at i4
  refine ⟨i1, i2, i3, ?_, i5, i6, i7, i8, i9, i10⟩
  simp only [List.length_cons] at i4
  dsimp only
  omega

theorem inv_cCleanP (s : St) (m : Msg) (rest : List Msg) (h : s.cons = .halt)
    (hq : s.procQ.items = m :: rest) (hinv : INV s) :
    INV { s with procQ := ⟨rest, s.procQ.unfinished⟩ } := by
  obtain ⟨i1, i2, i3, i4, i5, i6, i7, i8, i9, i10⟩ := hinv
  rw [hq] at i5
  refine ⟨i1, i2, i3, i4, ?_, i6, i7, ?_, i9, i10⟩
  · simp only [List.length_cons] at i5
    dsimp only
    omega
  · intro h5
    exfalso
    have := (i8 h5).2
    rw [hq] at this
    cases this

theorem inv_step {numB W : Nat} {s t : St} (hinv : INV s) (hst : Step numB W s t) :
    INV t := by
  cases hst with
  | lStartHalt h hstop => exact inv_lStartHalt s h hstop hinv
  | lStartGo h hstop => exact inv_lStartGo s h hstop hinv
  | lLoopSkip b h hb hstop => exact inv_lLoopSkip s b h hstop hinv
  | lLoopPut b h hb hstop hcap => exact inv_lLoopPut s b h hinv
  | lLoopFin b h hb => exact inv_lLoopFin s b h hinv
  | lDrain h => exact inv_lDrain s h hinv
  | lJoinLoad h hq => exact inv_lJoinLoad s h hq hinv
  | lJoinProc1 h hq => exact inv_lJoinProc1 s h hq hinv
  | lPutNone h hcap => exact inv_lPutNone s h hinv
  | lJoinProc2 h hq => exact inv_lJoinProc2 s h hinv
  | lSetStop h => exact inv_lSetStop s h hinv
  | wTopHalt l1 l2 h hstop =>
    exact inv_worker_frame s l1 l2 .top .halt h rfl (by intro hc; simp [needsDrain] at hc) hinv
  | wTopGo l1 l2 h hstop =>
    exact inv_worker_frame s l1 l2 .top .getCall h rfl (by intro hc; simp [needsDrain] at hc) hinv
  | wCallNB l1 l2 h hdr =>
    exact inv_worker_frame s l1 l2 .getCall .getNB h rfl (fun _ => Or.inr hdr) hinv
  | wCallBlk l1 l2 h hdr =>
    exact inv_worker_frame s l1 l2 .getCall .getBlk h rfl (by intro hc; simp [needsDrain] at hc) hinv
  | wBlkPop l1 l2 m rest h hq => exact inv_wPop s l1 l2 .getBlk m rest h hq rfl hinv
  | wNBPop l1 l2 m rest h hq => exact inv_wPop s l1 l2 .getNB m rest h hq rfl hinv
  | wNBEmpty l1 l2 h hq =>
    exact inv_worker_frame s l1 l2 .getNB .eJoinLoad h rfl (fun _ => Or.inl rfl) hinv
  | wPut l1 l2 h hcap => exact inv_wPut s l1 l2 h hinv
  | wAck l1 l2 h => exact inv_wAck s l1 l2 h hinv
  | wEJL l1 l2 h hq =>
    exact inv_worker_frame s l1 l2 .eJoinLoad .eJoinProc h rfl (fun _ => Or.inl rfl) hinv
  | wEJP l1 l2 h hq =>
    exact inv_worker_frame s l1 l2 .eJoinProc .setStopW h rfl (fun _ => Or.inl rfl) hinv
  | wSetStop l1 l2 h => exact inv_wSetStop s l1 l2 h hinv
  | cTopHalt h hstop => exact inv_cTop s .halt h (by simp) hinv
  | cTopGo h hstop => exact inv_cTop s .pull h (by simp) hinv
  | cPull m rest h hq => exact inv_cPull s m rest h hq hinv
  | cAck h => exact inv_cAck s h hinv
  | cCleanL m rest h hq => exact inv_cCleanL s m rest h hq hinv
  | cCleanP m rest h hq => exact inv_cCleanP s m rest h hq hinv

theorem countP_replicate_top (W : Nat) :
    (List.replicate W WPC.top).countP isHold = 0 := by
  induction W with
  | zero => rfl
  | succ n ih => simp [List.replicate, List.countP_cons, isHold, ih]

theorem inv_init (W : Nat) : INV (initSt W) := by
  refine ⟨?_, ?_, ?_, ?_, ?_, ?_, ?_, ?_, ?_, ?_⟩
  · intro hc; cases hc
  · simp [initSt, ldStage]
  · simp [initSt, ldStage]
  · simp [initSt, countP_replicate_top]
  · simp [initSt]
  · intro _; rfl
  · intro hc; simp [initSt, ldStage] at hc
  · intro hc; simp [initSt, ldStage] at hc
  · intro w hw hn
    have := List.eq_of_mem_replicate hw
    subst this
    simp [needsDrain] at hn
  · simp [initSt]

theorem reach_inv {numB W : Nat} {s : St} (h : Reach numB W s) : INV s := by
  induction h with
  | init => exact inv_init W
  | next hr hst ih => exact inv_step ih hst

end Flow

/-- C4: in every reachable state of a fault-free streaming invocation
with `loop_forever` off: the stop flag can only be observed after the
drain flag (both are monotone, so the drain signal strictly precedes the
stop signal); at most one sentinel is ever pushed, and exactly one once
the loader thread has exited; the sentinel is pushed only from a state
where both queues are fully consumed (no queued items, no unfinished
tasks); and the consumer loop never surfaces a sentinel to the caller as
a batch. -/
theorem c4_drain_protocol (numB W : Nat) (s : Flow.St) (h : Flow.Reach numB W s) :
    (s.stopF = true → s.drainF = true)
    ∧ s.sentCount ≤ 1
    ∧ (s.ldr = .halt → s.sentCount = 1)
    ∧ (s.ldr = .putNone →
        s.loadQ.unfinished = 0 ∧ s.procQ.unfinished = 0 ∧ s.procQ.items = [])
    ∧ Flow.Msg.sentinel ∉ s.yielded := by
  obtain ⟨i1, i2, i3, i4, i5, i6, i7, i8, i9, i10⟩ := Flow.reach_inv h
  refine ⟨i1, ?_, ?_, ?_, i10⟩
  · rw [i3]
    split <;> omega
  · intro hh
    rw [i3, hh]
    simp [Flow.ldStage]
  · intro hp
    refine ⟨i7 (by rw [hp]; simp [Flow.ldStage]), ?_, ?_⟩
    · exact (i8 (by rw [hp]; rfl)).1
    · exact (i8 (by rw [hp]; rfl)).2

/-- C4 witness: the protocol statement at the initial state of an
invocation with 3 batches and 2 workers. -/
theorem c4_drain_protocol_witness :
    ((Flow.initSt 2).stopF = true → (Flow.initSt 2).drainF = true)
    ∧ (Flow.initSt 2).sentCount ≤ 1
    ∧ ((Flow.initSt 2).ldr = .halt → (Flow.initSt 2).sentCount = 1)
    ∧ ((Flow.initSt 2).ldr = .putNone →
        (Flow.initSt 2).loadQ.unfinished = 0 ∧ (Flow.initSt 2).procQ.unfinished = 0
          ∧ (Flow.initSt 2).procQ.items = [])
    ∧ Flow.Msg.sentinel ∉ (Flow.initSt 2).yielded :=
  c4_drain_protocol 3 2 (Flow.initSt 2) Flow.Reach.init

end DataTools
